import Mathlib

/-!
Shallow embedding of the Kabul multiplayer card game engine.

The in-memory authoritative engine lives in `src/src/KabulGame.js`
(class `KabulGame`); a parallel Firebase service layer (the second copy in
`src/unnamed/part_002`, the one whose see-and-swap protocol is split into
the four step functions `_seeSwapSelectOwn`, `_seeSwapSelectTarget`,
`_seeSwapReveal`, `_confirmSwap`) is embedded further below as the `FB`
namespace.

Conventions of the embedding:
* JS `throw` is modelled by returning `Except.error`; every operation
  returns the state as it stands at the moment of the throw (for this
  engine all validations precede all mutations, which the theorems make
  explicit).
* `Date.now()` is modelled by an explicit `now : Nat` argument threaded
  into exactly the operations that read the clock.
* `Math.random()`-driven shuffling is modelled by an explicit list of
  chosen indices (one per Fisher-Yates iteration).
* JS arrays used as stacks keep their JS orientation: the deck's top is
  the head (`shift` pops the head), the discard pile's top is the last
  element (`push`/`pop` act at the end).
* Hand cards are cards carrying the extra `position` field that
  `KabulGame.js` maintains (`{ ...card, position: i }`); when a hand card
  is pushed onto the discard pile the engine never reads `position`
  again, so the pile stores plain cards.
-/

namespace Kabul

/-- A card as built by `KabulGame._createCard`: rank, optional suit
(`null` for jokers), scoring value, ability tag and display label. -/
structure Card where
  rank : String
  suit : Option String
  value : Int
  actionType : String
  display : String
  deriving DecidableEq, Repr

/-- A card held in a hand, i.e. a card together with the `position`
field that the engine maintains (`{ ...card, position: i }`). -/
structure HandCard extends Card where
  position : Nat
  deriving DecidableEq, Repr

/-- `{ ...card, position := i }`. -/
def Card.withPos (c : Card) (i : Nat) : HandCard :=
  { c with position := i }

/-- A player record as created by `KabulGame.addPlayer`. -/
structure Player where
  id : String
  name : String
  hand : List HandCard
  hasCalledKabul : Bool
  isConnected : Bool
  finalScore : Option Int
  deriving DecidableEq, Repr

/-- Game phases (`WAITING | MEMORIZE | PLAYING | ENDED`). -/
inductive Phase where
  | WAITING
  | MEMORIZE
  | PLAYING
  | ENDED
  deriving DecidableEq, Repr

/-- The `ACTION_STATES` table of `KabulGame.js`. -/
inductive AState where
  | CHOOSING_OWN_CARD_TO_PEEK
  | CHOOSING_ENEMY_CARD_TO_PEEK
  | SWAPPING_CARDS
  | SEE_AND_SWAPPING_CARDS
  | PEEK_RESULT
  deriving DecidableEq, Repr

/-- The engine's `pendingAction` record.  The optional fields are the
ones only some producers set (`peekOwnCard` / `peekEnemyCard` set
`targetId`, `handIndex` and `card`; nothing in this engine ever sets
`revealedCard`, which `_getPendingActionView` nevertheless reads). -/
structure PendingAction where
  type : AState
  playerId : String
  targetId : Option String
  handIndex : Option Nat
  card : Option HandCard
  revealedCard : Option Card
  expiresAt : Nat
  deriving DecidableEq, Repr

/-- The engine's `drawnCard` record `{ playerId, card }`. -/
structure DrawnCard where
  playerId : String
  card : Card
  deriving DecidableEq, Repr

/-- The full authoritative state held by a `KabulGame` instance. -/
structure GameState where
  gameId : String
  phase : Phase
  memorizeEndsAt : Option Nat
  players : List (String × Player)
  turnOrder : List String
  currentTurnIndex : Nat
  deck : List Card
  discardPile : List Card
  topDiscard : Option Card
  drawnCard : Option DrawnCard
  pendingAction : Option PendingAction
  kabulCaller : Option String
  finalTurnsRemaining : Int
  winner : Option String
  deriving DecidableEq, Repr

/-- Look a player up in the `players` map. -/
def findP (ps : List (String × Player)) (pid : String) : Option Player :=
  (ps.find? (fun q => q.1 = pid)).map (·.2)

/-- Replace the entry for `pid` in the `players` map. -/
def setP (ps : List (String × Player)) (pid : String) (p : Player) :
    List (String × Player) :=
  ps.map (fun q => if q.1 = pid then (pid, p) else q)

/-- `KabulGame.getCurrentPlayerId`: `turnOrder[currentTurnIndex]`
(`none` models the JS `undefined` of an out-of-range access). -/
def getCurrentPlayerId (s : GameState) : Option String :=
  s.turnOrder.get? s.currentTurnIndex

/-- Result of an engine call: the state as it stands when the call
returns or throws, paired with the JS return value or thrown message. -/
abbrev Res (α : Type) := GameState × Except String α

/-- `KabulGame._addToDiscard`: push onto the discard pile and update the
`topDiscard` mirror. -/
def addToDiscard (s : GameState) (c : Card) : GameState :=
  { s with discardPile := s.discardPile ++ [c], topDiscard := some c }

/-- The constructor of `KabulGame`: the pristine WAITING state. -/
def mkInitial (gameId : String) : GameState :=
  { gameId := gameId
    phase := Phase.WAITING
    memorizeEndsAt := none
    players := []
    turnOrder := []
    currentTurnIndex := 0
    deck := []
    discardPile := []
    topDiscard := none
    drawnCard := none
    pendingAction := none
    kabulCaller := none
    finalTurnsRemaining := 0
    winner := none }

/-- `KabulGame.addPlayer`. -/
def addPlayer (s : GameState) (pid name : String) : Res Unit :=
  if s.phase ≠ Phase.WAITING then
    (s, .error "Game already started")
  else
    ({ s with
        players := s.players ++
          [(pid, { id := pid, name := name, hand := [], hasCalledKabul := false,
                   isConnected := true, finalScore := none })]
        turnOrder := s.turnOrder ++ [pid] },
     .ok ())

/-- `CARD_VALUES[rank]` (defined only on the thirteen rank keys plus
`Joker`; `_createCard` never consults it outside that domain). -/
def CARD_VALUES (rank : String) : Option Int :=
  if rank = "Joker" then some 0
  else if rank = "A" then some 1
  else if rank = "2" then some 2
  else if rank = "3" then some 3
  else if rank = "4" then some 4
  else if rank = "5" then some 5
  else if rank = "6" then some 6
  else if rank = "7" then some 7
  else if rank = "8" then some 8
  else if rank = "9" then some 9
  else if rank = "10" then some 10
  else if rank = "J" then some 11
  else if rank = "Q" then some 12
  else if rank = "K" then some 13
  else none

/-- `CARD_ABILITIES[rank] || 'NONE'`. -/
def CARD_ABILITIES (rank : String) : String :=
  if rank = "7" ∨ rank = "8" then "PEEK_SELF"
  else if rank = "9" ∨ rank = "10" then "PEEK_ENEMY"
  else if rank = "J" then "BLIND_SWAP"
  else if rank = "Q" ∨ rank = "K" then "SEE_AND_SWAP"
  else "NONE"

/-- `KabulGame._createCard`. -/
def createCard (rank : String) (suit : Option String) : Card :=
  let value : Int :=
    if rank = "Joker" then 0
    else if rank = "K" then
      (if suit = some "♥" ∨ suit = some "♦" then -1 else 13)
    else (CARD_VALUES rank).getD 0
  let actionType := if rank = "Joker" then "NONE" else CARD_ABILITIES rank
  let display :=
    match suit with
    | some su => rank ++ su
    | none => rank
  { rank := rank, suit := suit, value := value,
    actionType := actionType, display := display }

/-- The suit list of `_initDeck`. -/
def suitList : List String := ["♥", "♦", "♠", "♣"]

/-- The rank list of `_initDeck`. -/
def rankList : List String :=
  ["A", "2", "3", "4", "5", "6", "7", "8", "9", "10", "J", "Q", "K"]

/-- The 54-card deck built by `KabulGame._initDeck`: 4 suits × 13 ranks
in suit-major order, followed by two jokers. -/
def fullDeck : List Card :=
  (suitList.flatMap (fun su => rankList.map (fun r => createCard r (some su))))
    ++ [createCard "Joker" none, createCard "Joker" none]

/-- `KabulGame._initDeck`. -/
def initDeck (s : GameState) : GameState :=
  { s with deck := fullDeck }

/-- One JS destructuring swap `[arr[i], arr[j]] = [arr[j], arr[i]]`.
Both indices are in range whenever the caller is `_shuffleDeck`
(`0 ≤ j ≤ i < length`); out of range the JS statement is never executed
with, so the fallback arm is unreachable and returns the list unchanged. -/
def swapIdx {α : Type} (l : List α) (i j : Nat) : List α :=
  match h1 : l.get? i, h2 : l.get? j with
  | some a, some b => (l.set i b).set j a
  | _, _ => l

/-- The Fisher-Yates loop of `_shuffleDeck`, with the successive values
of `Math.floor(Math.random() * (i + 1))` supplied as the list `js`
(consumed from the head as `i` counts down from `length - 1` to `1`). -/
def fisherYates {α : Type} (l : List α) : Nat → List Nat → List α
  | 0, _ => l
  | _ + 1, [] => l
  | i + 1, j :: rest => fisherYates (swapIdx l (i + 1) j) i rest

/-- `KabulGame._shuffleDeck`, randomness passed in as `js`. -/
def shuffleDeck (s : GameState) (js : List Nat) : GameState :=
  { s with deck := fisherYates s.deck (s.deck.length - 1) js }

/-- The body of the dealing loop of `_dealCards`: one player replaces
their hand with the next four cards shifted off the deck, tagged with
positions. -/
def dealStep (st : GameState) (pid : String) : GameState :=
  match findP st.players pid with
  | none => st
  | some p =>
    let newHand := (st.deck.take 4).mapIdx (fun i c => c.withPos i)
    { st with
        deck := st.deck.drop 4
        players := setP st.players pid { p with hand := newHand } }

/-- `KabulGame._dealCards`. -/
def dealCards (s : GameState) : GameState :=
  s.turnOrder.foldl dealStep s

/-- `KabulGame._initDiscard`: shift one card off the deck onto the
discard pile (the deck is never empty here in any state the engine
builds, 54 ≥ 4·players + 1). -/
def initDiscard (s : GameState) : GameState :=
  match s.deck with
  | [] => s
  | c :: rest =>
    { s with deck := rest
             discardPile := s.discardPile ++ [c]
             topDiscard := some c }

/-- `KabulGame.startGame` (`MEMORIZE_DURATION = 3000`). -/
def startGame (s : GameState) (js : List Nat) (now : Nat) : Res Unit :=
  if s.turnOrder.length < 2 then
    (s, .error "Need at least 2 players")
  else
    let s1 := initDiscard (dealCards (shuffleDeck (initDeck s) js))
    ({ s1 with phase := Phase.MEMORIZE, memorizeEndsAt := some (now + 3000) },
     .ok ())

/-- `KabulGame.endMemorizePhase`. -/
def endMemorizePhase (s : GameState) : GameState :=
  if s.phase = Phase.MEMORIZE then
    { s with phase := Phase.PLAYING, memorizeEndsAt := none }
  else s

/-- `KabulGame._validateTurn` as a pure predicate: `none` means the
checks pass, `some msg` the thrown message. -/
def validateTurn (s : GameState) (pid : String) : Option String :=
  if s.phase ≠ Phase.PLAYING then some "Game is not in playing phase"
  else if getCurrentPlayerId s ≠ some pid then some "Not your turn"
  else none

/-- `KabulGame.drawCard`. -/
def drawCard (s : GameState) (pid source : String) : Res Card :=
  match validateTurn s pid with
  | some e => (s, .error e)
  | none =>
    if s.drawnCard.isSome then (s, .error "Already drew a card this turn")
    else if source = "deck" then
      match s.deck with
      | [] => (s, .error "Deck is empty")
      | c :: rest =>
        ({ s with deck := rest, drawnCard := some ⟨pid, c⟩ }, .ok c)
    else if source = "discard" then
      match h : s.discardPile.getLast? with
      | none => (s, .error "Discard pile is empty")
      | some c =>
        let pile := s.discardPile.dropLast
        ({ s with discardPile := pile, topDiscard := pile.getLast?,
                  drawnCard := some ⟨pid, c⟩ }, .ok c)
    else (s, .error "Invalid source")

/-- `KabulGame._resolveAction` (`ACTION_TIMEOUT = 15000`): open the
pending ability matching the rank of the card that just went to the
discard pile, if any. -/
def resolveAction (s : GameState) (card : Card) (pid : String) (now : Nat) :
    GameState :=
  let mk : AState → GameState := fun t =>
    let pa : PendingAction :=
      { type := t, playerId := pid, targetId := none, handIndex := none,
        card := none, revealedCard := none, expiresAt := now + 15000 }
    { s with pendingAction := some pa }
  if card.rank = "7" ∨ card.rank = "8" then mk AState.CHOOSING_OWN_CARD_TO_PEEK
  else if card.rank = "9" ∨ card.rank = "10" then
    mk AState.CHOOSING_ENEMY_CARD_TO_PEEK
  else if card.rank = "J" then mk AState.SWAPPING_CARDS
  else if card.rank = "Q" ∨ card.rank = "K" then
    mk AState.SEE_AND_SWAPPING_CARDS
  else s

/-- `KabulGame._computeHandValue`. -/
def computeHandValue (hand : List HandCard) : Int :=
  hand.foldl (fun acc c => acc + c.value) 0

/-- The body of the scoring loop of `_endGame`: score one player, write
their `finalScore`, and keep the best (first strictly-lowest) so far. -/
def scoreStep (st : GameState × Option (String × Int)) (pid : String) :
    GameState × Option (String × Int) :=
  match findP st.1.players pid with
  | none => st
  | some p =>
    let score := computeHandValue p.hand
    let st1 := { st.1 with
      players := setP st.1.players pid { p with finalScore := some score } }
    match st.2 with
    | none => (st1, some (pid, score))
    | some best =>
      if score < best.2 then (st1, some (pid, score)) else (st1, some best)

/-- `KabulGame._endGame`: fix the phase, score every hand, and pick the
first strictly-lowest scorer in turn order as winner. -/
def endGame (s : GameState) : GameState :=
  let out := s.turnOrder.foldl scoreStep ({ s with phase := Phase.ENDED }, none)
  { out.1 with winner := out.2.map (·.1) }

/-- `KabulGame._nextTurn`: advance the turn index, skip the Kabul
caller, and when Kabul has been called decrement `finalTurnsRemaining`
and end the game at zero. -/
def nextTurn (s : GameState) : GameState :=
  let n := s.turnOrder.length
  let s1 := { s with currentTurnIndex := (s.currentTurnIndex + 1) % n }
  let s2 :=
    if getCurrentPlayerId s1 = s.kabulCaller ∧ s.kabulCaller.isSome then
      { s1 with currentTurnIndex := (s1.currentTurnIndex + 1) % n }
    else s1
  if s.kabulCaller.isSome then
    let s3 := { s2 with finalTurnsRemaining := s2.finalTurnsRemaining - 1 }
    if s3.finalTurnsRemaining ≤ 0 then endGame s3 else s3
  else s2

/-- `KabulGame.swapCard`: swap the drawn card into the hand, discard the
displaced card, resolve its ability, and advance the turn when no
ability opened.  `handIndex` is a raw JS number, hence `Int`. -/
def swapCard (s : GameState) (pid : String) (handIndex : Int) (now : Nat) :
    Res Card :=
  match validateTurn s pid with
  | some e => (s, .error e)
  | none =>
    match s.drawnCard with
    | none => (s, .error "No card drawn this turn")
    | some d =>
      if d.playerId ≠ pid then (s, .error "No card drawn this turn")
      else
        match findP s.players pid with
        | none => (s, .error "TypeError: no such player")
        | some p =>
          if handIndex < 0 ∨ (p.hand.length : Int) ≤ handIndex then
            (s, .error "Invalid hand index")
          else
            match h : p.hand.get? handIndex.toNat with
            | none => (s, .error "Invalid hand index")
            | some replaced =>
              let newHand :=
                p.hand.set handIndex.toNat (d.card.withPos handIndex.toNat)
              let p1 := { p with hand := newHand }
              let s1 := { s with players := setP s.players pid p1 }
              let s2 := addToDiscard s1 replaced.toCard
              let s3 := { s2 with drawnCard := none }
              let s4 := resolveAction s3 replaced.toCard pid now
              let s5 := if s4.pendingAction.isNone then nextTurn s4 else s4
              (s5, .ok replaced.toCard)

/-- `KabulGame.discardDrawn`. -/
def discardDrawn (s : GameState) (pid : String) (now : Nat) : Res Card :=
  match validateTurn s pid with
  | some e => (s, .error e)
  | none =>
    match s.drawnCard with
    | none => (s, .error "No card drawn this turn")
    | some d =>
      if d.playerId ≠ pid then (s, .error "No card drawn this turn")
      else
        let s1 := addToDiscard s d.card
        let s2 := { s1 with drawnCard := none }
        let s3 := resolveAction s2 d.card pid now
        let s4 := if s3.pendingAction.isNone then nextTurn s3 else s3
        (s4, .ok d.card)

/-- `KabulGame._validatePendingAction`: checks the pending action and,
on expiry, clears it while throwing (the one validation that mutates). -/
def validatePendingAction (s : GameState) (pid : String) (t : AState)
    (now : Nat) : GameState × Option String :=
  match s.pendingAction with
  | none => (s, some "No pending action")
  | some pending =>
    if pending.playerId ≠ pid ∨ pending.type ≠ t then
      (s, some "No pending action")
    else if pending.expiresAt < now then
      ({ s with pendingAction := none }, some "Action expired")
    else (s, none)

/-- `KabulGame.peekOwnCard` (`PEEK_DURATION = 3000`). -/
def peekOwnCard (s : GameState) (pid : String) (handIndex : Int)
    (now : Nat) : Res HandCard :=
  match validatePendingAction s pid AState.CHOOSING_OWN_CARD_TO_PEEK now with
  | (s', some e) => (s', .error e)
  | (s', none) =>
    match findP s'.players pid with
    | none => (s', .error "TypeError: no such player")
    | some p =>
      if handIndex < 0 ∨ (p.hand.length : Int) ≤ handIndex then
        (s', .error "Invalid hand index")
      else
        match p.hand.get? handIndex.toNat with
        | none => (s', .error "Invalid hand index")
        | some card =>
          let pa : PendingAction :=
            { type := AState.PEEK_RESULT, playerId := pid,
              targetId := some pid, handIndex := some handIndex.toNat,
              card := some card, revealedCard := none,
              expiresAt := now + 3000 }
          ({ s' with pendingAction := some pa }, .ok card)

/-- `KabulGame.peekEnemyCard`. -/
def peekEnemyCard (s : GameState) (pid targetId : String) (handIndex : Int)
    (now : Nat) : Res HandCard :=
  match validatePendingAction s pid AState.CHOOSING_ENEMY_CARD_TO_PEEK now with
  | (s', some e) => (s', .error e)
  | (s', none) =>
    if targetId = pid then (s', .error "Cannot peek your own card with 9/10")
    else
      match findP s'.players targetId with
      | none => (s', .error "Invalid target player")
      | some target =>
        if handIndex < 0 ∨ (target.hand.length : Int) ≤ handIndex then
          (s', .error "Invalid hand index")
        else
          match target.hand.get? handIndex.toNat with
          | none => (s', .error "Invalid hand index")
          | some card =>
            let pa : PendingAction :=
              { type := AState.PEEK_RESULT, playerId := pid,
                targetId := some targetId,
                handIndex := some handIndex.toNat,
                card := some card, revealedCard := none,
                expiresAt := now + 3000 }
            ({ s' with pendingAction := some pa }, .ok card)

/-- `KabulGame.blindSwap`. -/
def blindSwap (s : GameState) (pid : String) (ownIndex : Int)
    (targetId : String) (targetIndex : Int) (now : Nat) : Res Unit :=
  match validatePendingAction s pid AState.SWAPPING_CARDS now with
  | (s', some e) => (s', .error e)
  | (s', none) =>
    if targetId = pid then (s', .error "Cannot swap with yourself")
    else
      match findP s'.players pid, findP s'.players targetId with
      | none, _ => (s', .error "TypeError: no such player")
      | some _, none => (s', .error "Invalid target player")
      | some p, some target =>
        if ownIndex < 0 ∨ (p.hand.length : Int) ≤ ownIndex then
          (s', .error "Invalid own index")
        else if targetIndex < 0 ∨ (target.hand.length : Int) ≤ targetIndex then
          (s', .error "Invalid target index")
        else
          match p.hand.get? ownIndex.toNat,
                target.hand.get? targetIndex.toNat with
          | some ownCard, some targetCard =>
            let p1hand := p.hand.set ownIndex.toNat
              (targetCard.toCard.withPos ownIndex.toNat)
            let s1 := { s' with players := setP s'.players pid { p with hand := p1hand } }
            let t1hand := target.hand.set targetIndex.toNat
              (ownCard.toCard.withPos targetIndex.toNat)
            let s2 := { s1 with players := setP s1.players targetId { target with hand := t1hand } }
            let s3 := { s2 with pendingAction := none }
            (nextTurn s3, .ok ())
          | _, _ => (s', .error "Invalid index")

/-- `KabulGame.seeAndSwap`: identical exchange to `blindSwap`, gated on
the SEE_AND_SWAP pending state, returning both swapped cards to the
caller. -/
def seeAndSwap (s : GameState) (pid : String) (ownIndex : Int)
    (targetId : String) (targetIndex : Int) (now : Nat) :
    Res (Card × Card) :=
  match validatePendingAction s pid AState.SEE_AND_SWAPPING_CARDS now with
  | (s', some e) => (s', .error e)
  | (s', none) =>
    if targetId = pid then (s', .error "Cannot swap with yourself")
    else
      match findP s'.players pid, findP s'.players targetId with
      | none, _ => (s', .error "TypeError: no such player")
      | some _, none => (s', .error "Invalid target player")
      | some p, some target =>
        if ownIndex < 0 ∨ (p.hand.length : Int) ≤ ownIndex then
          (s', .error "Invalid own index")
        else if targetIndex < 0 ∨ (target.hand.length : Int) ≤ targetIndex then
          (s', .error "Invalid target index")
        else
          match p.hand.get? ownIndex.toNat,
                target.hand.get? targetIndex.toNat with
          | some ownCard, some targetCard =>
            let p1hand := p.hand.set ownIndex.toNat
              (targetCard.toCard.withPos ownIndex.toNat)
            let s1 := { s' with players := setP s'.players pid { p with hand := p1hand } }
            let t1hand := target.hand.set targetIndex.toNat
              (ownCard.toCard.withPos targetIndex.toNat)
            let s2 := { s1 with players := setP s1.players targetId { target with hand := t1hand } }
            let s3 := { s2 with pendingAction := none }
            (nextTurn s3, .ok (ownCard.toCard, targetCard.toCard))
          | _, _ => (s', .error "Invalid index")

/-- `KabulGame.skipAction`: clears the acting player's pending ability
and advances the turn; a non-owner's call is a silent no-op. -/
def skipAction (s : GameState) (pid : String) : GameState :=
  match s.pendingAction with
  | some pending =>
    if pending.playerId = pid then
      nextTurn { s with pendingAction := none }
    else s
  | none => s

/-- `KabulGame._clearPeekAndNextTurn` (the body of the peek timeout). -/
def clearPeekAndNextTurn (s : GameState) (pid : String) : GameState :=
  match s.pendingAction with
  | some pending =>
    if pending.type = AState.PEEK_RESULT ∧ pending.playerId = pid then
      nextTurn { s with pendingAction := none }
    else s
  | none => s

/-- `KabulGame.slap`.  `handIndex` is a raw JS number, hence `Int`. -/
def slap (s : GameState) (pid : String) (handIndex : Int) : Res Bool :=
  if s.phase ≠ Phase.PLAYING then
    (s, .error "Cannot slap outside of playing phase")
  else
    match findP s.players pid with
    | none => (s, .error "TypeError: no such player")
    | some p =>
      if handIndex < 0 ∨ (p.hand.length : Int) ≤ handIndex then
        (s, .error "Invalid hand index")
      else
        match p.hand.get? handIndex.toNat with
        | none => (s, .error "Invalid hand index")
        | some card =>
          if s.topDiscard.map Card.rank = some card.rank then
            let newHand := (p.hand.eraseIdx handIndex.toNat).mapIdx
              (fun k c => { c with position := k })
            let s1 := { s with players := setP s.players pid { p with hand := newHand } }
            (addToDiscard s1 card.toCard, .ok true)
          else
            match s.deck with
            | [] => (s, .ok false)
            | penalty :: rest =>
              let p1 := { p with hand := p.hand ++ [penalty.withPos p.hand.length] }
              ({ s with deck := rest, players := setP s.players pid p1 },
               .ok false)

/-- `KabulGame.callKabul`. -/
def callKabul (s : GameState) (pid : String) : Res Unit :=
  match validateTurn s pid with
  | some e => (s, .error e)
  | none =>
    if s.drawnCard.isSome then
      (s, .error "Must discard or swap before calling Kabul")
    else
      match findP s.players pid with
      | none => (s, .error "TypeError: no such player")
      | some p =>
        let n := s.turnOrder.length
        ({ s with
            players := setP s.players pid { p with hasCalledKabul := true }
            kabulCaller := some pid
            finalTurnsRemaining := (n : Int) - 1
            currentTurnIndex := (s.currentTurnIndex + 1) % n },
         .ok ())


/-!  Masked per-player client views (`KabulGame.getClientState`). -/

/-- One entry of the masked hand view produced by `_maskHand`: either
`{ position, display, value, visible: true }` during the memorize window
for the front row, or `{ position, visible: false }`. -/
structure MaskedHandCard where
  position : Nat
  display : Option String
  value : Option Int
  visible : Bool
  deriving DecidableEq, Repr

/-- `KabulGame._maskHand`. -/
def maskHand (p : Player) (isMemorize : Bool) : List MaskedHandCard :=
  p.hand.mapIdx (fun idx c =>
    if isMemorize ∧ idx ≤ 1 then
      { position := idx, display := some c.display, value := some c.value,
        visible := true }
    else
      { position := idx, display := none, value := none, visible := false })

/-- The peeked-card record a client may receive (`_getPeekedCard`). -/
structure PeekedView where
  position : Option Nat
  display : String
  value : Int
  targetPlayerId : Option String
  expiresAt : Nat
  deriving DecidableEq, Repr

/-- `KabulGame._getPeekedCard`: only the owner of a `PEEK_RESULT`
pending action sees the peeked card. -/
def getPeekedCard (s : GameState) (pid : String) : Option PeekedView :=
  match s.pendingAction with
  | some pending =>
    if pending.type = AState.PEEK_RESULT ∧ pending.playerId = pid then
      pending.card.map (fun c =>
        { position := pending.handIndex, display := c.display,
          value := c.value, targetPlayerId := pending.targetId,
          expiresAt := pending.expiresAt })
    else none
  | none => none

/-- One opponent's public summary (`_getOpponentsView`). -/
structure OpponentView where
  id : String
  name : String
  cardCount : Nat
  hasCalledKabul : Bool
  deriving DecidableEq, Repr

/-- `KabulGame._getOpponentsView` (JS would crash on a turn-order id
with no player record; the embedding drops such ids). -/
def getOpponentsView (s : GameState) (myPlayerId : String) :
    List OpponentView :=
  (s.turnOrder.filter (fun i => i ≠ myPlayerId)).filterMap (fun i =>
    (findP s.players i).map (fun p =>
      { id := p.id, name := p.name, cardCount := p.hand.length,
        hasCalledKabul := p.hasCalledKabul }))

/-- The pending-action summary a client may receive
(`_getPendingActionView`). -/
structure PendingView where
  type : AState
  expiresAt : Nat
  revealedCard : Option Card
  deriving DecidableEq, Repr

/-- `KabulGame._getPendingActionView`: only the acting player sees the
pending action (including its `revealedCard` payload). -/
def getPendingActionView (s : GameState) (pid : String) :
    Option PendingView :=
  match s.pendingAction with
  | some pending =>
    if pending.playerId = pid then
      some { type := pending.type, expiresAt := pending.expiresAt,
             revealedCard := pending.revealedCard }
    else none
  | none => none

/-- The public summary of the discard-pile top. -/
structure TopDiscardView where
  display : String
  value : Int
  rank : String
  deriving DecidableEq, Repr

/-- The drawn-card view shown only to the drawing player. -/
structure DrawnView where
  display : String
  value : Int
  actionType : String
  deriving DecidableEq, Repr

/-- The whole masked client state of one player
(`KabulGame.getClientState`). -/
structure ClientState where
  gameId : String
  phase : Phase
  memorizeEndsAt : Option Nat
  myHand : List MaskedHandCard
  peekedCard : Option PeekedView
  opponents : List OpponentView
  topDiscard : Option TopDiscardView
  deckCount : Nat
  currentTurn : Option String
  isMyTurn : Bool
  drawnCard : Option DrawnView
  pendingAction : Option PendingView
  kabulCaller : Option String
  canSlap : Bool
  deriving DecidableEq, Repr

/-- `KabulGame.getClientState` (`none` models the JS crash on an unknown
player id). -/
def getClientState (s : GameState) (pid : String) : Option ClientState :=
  (findP s.players pid).map (fun player =>
    { gameId := s.gameId
      phase := s.phase
      memorizeEndsAt := s.memorizeEndsAt
      myHand := maskHand player (s.phase = Phase.MEMORIZE)
      peekedCard := getPeekedCard s pid
      opponents := getOpponentsView s pid
      topDiscard := s.topDiscard.map (fun c =>
        { display := c.display, value := c.value, rank := c.rank })
      deckCount := s.deck.length
      currentTurn := getCurrentPlayerId s
      isMyTurn := getCurrentPlayerId s = some pid
      drawnCard :=
        match s.drawnCard with
        | some d =>
          if d.playerId = pid then
            some { display := d.card.display, value := d.card.value,
                   actionType := d.card.actionType }
          else none
        | none => none
      pendingAction := getPendingActionView s pid
      kabulCaller := s.kabulCaller
      canSlap := s.phase = Phase.PLAYING })

/-!  Derived turn sub-phase.

`KabulGame` has no explicit sub-phase field; the spec's per-turn
sub-phase machine (DRAWING before a card is drawn, DISCARDING while a
drawn card is unresolved — the spec itself glosses the DRAWING sub-phase
as "no card drawn yet") is realised by the `drawnCard` record. -/

/-- The engine state realises the DRAWING sub-phase: no drawn card is
pending. -/
def inDrawingSubPhase (s : GameState) : Prop :=
  s.drawnCard = none

/-- The engine state realises the DISCARDING sub-phase: a drawn card is
pending and unresolved. -/
def inDiscardingSubPhase (s : GameState) : Prop :=
  s.drawnCard.isSome

instance (s : GameState) : Decidable (inDrawingSubPhase s) := by
  unfold inDrawingSubPhase; infer_instance

instance (s : GameState) : Decidable (inDiscardingSubPhase s) := by
  unfold inDiscardingSubPhase; infer_instance


/-!  The Firebase service layer (the second service copy in
`src/unnamed/part_002`, CommonJS variant): only the parts the claims
exercise — the four-step SEE_AND_SWAP protocol (`_seeSwapSelectOwn`,
`_seeSwapSelectTarget`, `_seeSwapReveal`, `_confirmSwap`),
`_skipAbility`, `_advanceTurn` and `_endGame`.  Database nodes become
record fields; `update` on a sub-path edits just that field; `set` on a
private node replaces the whole node. -/

namespace FB

/-- A `players/{playerId}` record. -/
structure FBPlayer where
  name : String
  hand : List Card
  cardCount : Nat
  hasCalledKabul : Bool
  finalScore : Option Int
  deriving DecidableEq, Repr

/-- A `private/{playerId}/revealedCard` record. -/
structure FBReveal where
  position : Nat
  targetPlayerId : Option String
  rank : String
  suit : Option String
  value : Int
  display : String
  expiresAt : Option Nat
  deriving DecidableEq, Repr

/-- A `private/{playerId}` node. -/
structure FBPrivate where
  revealedCard : Option FBReveal
  drawnCard : Option Card
  deriving DecidableEq, Repr

/-- The `gameState/abilityState` node; every field is optional because
the service creates and fills it piecemeal with path updates. -/
structure FBAbility where
  type : Option String
  activePlayer : Option String
  ownCardIndex : Option Nat
  targetPlayer : Option String
  targetCardIndex : Option Nat
  step : Option String
  deriving DecidableEq, Repr

/-- The ability node all of whose fields are still unset. -/
def FBAbility.empty : FBAbility :=
  { type := none, activePlayer := none, ownCardIndex := none,
    targetPlayer := none, targetCardIndex := none, step := none }

/-- A whole `rooms/{roomId}` document (the parts the claims touch). -/
structure FBRoom where
  phase : String
  currentTurn : Option String
  turnPhase : String
  abilityState : Option FBAbility
  topDiscard : Option Card
  kabulCaller : Option String
  finalTurnsRemaining : Int
  winner : Option String
  players : List (String × FBPlayer)
  privates : List (String × FBPrivate)
  discardPile : List Card
  deck : List Card
  deriving DecidableEq, Repr

/-- Look a player node up. -/
def findPl (ps : List (String × FBPlayer)) (pid : String) :
    Option FBPlayer :=
  (ps.find? (fun q => q.1 = pid)).map (·.2)

/-- `update(playerRef, ...)` replacing that player's node. -/
def setPl (r : FBRoom) (pid : String) (p : FBPlayer) : FBRoom :=
  { r with players :=
      r.players.map (fun q => if q.1 = pid then (pid, p) else q) }

/-- `set(privateRef, v)`: replace (or create) the whole private node. -/
def setPriv (r : FBRoom) (pid : String) (v : FBPrivate) : FBRoom :=
  if (r.privates.find? (fun q => q.1 = pid)).isSome then
    { r with privates :=
        r.privates.map (fun q => if q.1 = pid then (pid, v) else q) }
  else
    { r with privates := r.privates ++ [(pid, v)] }

/-- An `update` on `abilityState/...` paths: edits the node, creating it
empty first when absent. -/
def updAbility (a? : Option FBAbility) (f : FBAbility → FBAbility) :
    Option FBAbility :=
  some (f (a?.getD FBAbility.empty))

/-- One iteration of `_endGame`'s scoring loop: append the player with
their final score recorded, and keep the strictly-lowest scorer so far. -/
def scoreStep (acc : List (String × FBPlayer) × Option (String × Int))
    (e : String × FBPlayer) :
    List (String × FBPlayer) × Option (String × Int) :=
  let score : Int := e.2.hand.foldl (fun a c => a + c.value) 0
  let acc1 := acc.1 ++ [(e.1, { e.2 with finalScore := some score })]
  match acc.2 with
  | none => (acc1, some (e.1, score))
  | some best =>
    if score < best.2 then (acc1, some (e.1, score)) else (acc1, some best)

/-- `_endGame`: score every hand in player-node order, record final
scores, declare the first strictly-lowest scorer the winner, and fix the
terminal phase. -/
def endGame (r : FBRoom) : FBRoom :=
  let out := r.players.foldl scoreStep ([], none)
  { r with players := out.1, winner := out.2.map (·.1), phase := "ENDED",
           turnPhase := "WAITING", abilityState := none }

/-- `_advanceTurn`: move to the next player-node key (JS `indexOf`
yields `-1` for an unknown id, so the successor of an unknown id is
index 0), skip the Kabul caller once, and during the Kabul countdown
decrement `finalTurnsRemaining`, ending the game when it reaches 0.  A
room with no player nodes would crash the JS (`% 0`); the embedding
returns it unchanged. -/
def advanceTurn (r : FBRoom) (cur : String) : FBRoom :=
  let keys := r.players.map (·.1)
  let n := keys.length
  if n = 0 then r
  else
    let i1 := (if cur ∈ keys then keys.indexOf cur + 1 else 0) % n
    let next1 := keys.getD i1 ""
    let next2 :=
      if some next1 = r.kabulCaller then keys.getD ((i1 + 1) % n) ""
      else next1
    if r.kabulCaller.isSome then
      let remaining := r.finalTurnsRemaining - 1
      if remaining ≤ 0 then endGame r
      else { r with finalTurnsRemaining := remaining,
                    currentTurn := some next2, turnPhase := "DRAWING" }
    else { r with currentTurn := some next2, turnPhase := "DRAWING" }

/-- `_seeSwapSelectOwn` (step A): record the chosen own index and move
the ability to the next step.  No other node is touched. -/
def seeSwapSelectOwn (r : FBRoom) (_pid : String) (ownIndex : Nat) :
    FBRoom :=
  { r with abilityState := updAbility r.abilityState (fun a =>
      { a with ownCardIndex := some ownIndex,
               step := some "SELECTING_TARGET_PLAYER" }) }

/-- `_seeSwapSelectTarget` (step B): record the chosen target player and
move the ability to the next step. -/
def seeSwapSelectTarget (r : FBRoom) (_pid : String)
    (targetPlayerId : String) : FBRoom :=
  { r with abilityState := updAbility r.abilityState (fun a =>
      { a with targetPlayer := some targetPlayerId,
               step := some "SELECTING_TARGET_CARD" }) }

/-- `_seeSwapReveal` (step C): write the target card into the acting
player's private node only, record the target index, and move the
ability to CONFIRMING; the pair of involved cards is the return value
delivered to the acting caller.  `Except.error` stands for the JS
`TypeError` raised on an absent ability/target/index (after exactly the
writes the JS has performed by that point). -/
def seeSwapReveal (r : FBRoom) (pid : String) (targetIndex : Nat) :
    FBRoom × Except String (Card × Card) :=
  match r.abilityState with
  | none => (r, .error "TypeError")
  | some a =>
    match a.targetPlayer with
    | none => (r, .error "TypeError")
    | some tid =>
      match findPl r.players tid with
      | none => (r, .error "TypeError")
      | some target =>
        match target.hand.get? targetIndex with
        | none => (r, .error "TypeError")
        | some tc =>
          let reveal : FBReveal :=
            { position := targetIndex, targetPlayerId := a.targetPlayer,
              rank := tc.rank, suit := tc.suit, value := tc.value,
              display := tc.display, expiresAt := none }
          let r1 := setPriv r pid { revealedCard := some reveal,
                                    drawnCard := none }
          match findPl r1.players pid with
          | none => (r1, .error "TypeError")
          | some player =>
            let own? := a.ownCardIndex.bind (fun i => player.hand.get? i)
            let a1 := { a with targetCardIndex := some targetIndex,
                               step := some "CONFIRMING" }
            let r2 := { r1 with abilityState := some a1,
                                turnPhase := "CONFIRMING_SWAP" }
            match own? with
            | some oc => (r2, .ok (oc, tc))
            | none => (r2, .error "TypeError")

/-- `_confirmSwap` (step D): the only step that writes any hand.  The
two index arguments of the JS function are ignored by its body, which
swaps at the indices the earlier steps recorded in `abilityState`.  Both
new hands are built from the pre-state; when actor and target coincide
the second write wins, like the two JS updates on the same node.  An
unset/stale recorded index makes the JS updates carry `undefined` and be
rejected, modelled as an error with no hand written. -/
def confirmSwap (r : FBRoom) (pid : String) (_ownIndex _targetIndex : Int) :
    FBRoom × Except String Unit :=
  match r.abilityState with
  | none => (r, .error "Not your ability")
  | some a =>
    if a.activePlayer ≠ some pid then (r, .error "Not your ability")
    else
      match a.targetPlayer with
      | none => (r, .error "TypeError")
      | some tid =>
        match findPl r.players pid, findPl r.players tid with
        | some player, some target =>
          match a.ownCardIndex, a.targetCardIndex with
          | some oi, some ti =>
            match player.hand.get? oi, target.hand.get? ti with
            | some oc, some tc =>
              let r1 := setPl r pid { player with
                hand := player.hand.set oi tc }
              let r2 := setPl r1 tid { target with
                hand := target.hand.set ti oc }
              let r3 := setPriv r2 pid { revealedCard := none,
                                         drawnCard := none }
              let r4 := { r3 with turnPhase := "WAITING",
                                  abilityState := none }
              (advanceTurn r4 pid, .ok ())
            | _, _ => (r, .error "TypeError")
          | _, _ => (r, .error "TypeError")
        | _, _ => (r, .error "TypeError")

/-- `_skipAbility`: clear the ability and the skipper's private reveal,
then advance the turn.  No hand is touched. -/
def skipAbility (r : FBRoom) (pid : String) : FBRoom :=
  let r1 := { r with turnPhase := "WAITING", abilityState := none }
  let r2 := setPriv r1 pid { revealedCard := none, drawnCard := none }
  advanceTurn r2 pid

end FB


/-!  Reachability: one constructor per public engine call. -/

/-- One completed engine call (successful or failed: a failed call
returns the state it left behind, which for this engine is the input
state).  `endMemorizePhase` and `clearPeekAndNextTurn` are the
server-driven transitions (memorize timer, peek-display timer). -/
inductive Step : GameState → GameState → Prop
  | draw (s : GameState) (pid src : String) :
      Step s (drawCard s pid src).1
  | swap (s : GameState) (pid : String) (i : Int) (now : Nat) :
      Step s (swapCard s pid i now).1
  | discard (s : GameState) (pid : String) (now : Nat) :
      Step s (discardDrawn s pid now).1
  | peekOwn (s : GameState) (pid : String) (i : Int) (now : Nat) :
      Step s (peekOwnCard s pid i now).1
  | peekEnemy (s : GameState) (pid tid : String) (i : Int) (now : Nat) :
      Step s (peekEnemyCard s pid tid i now).1
  | bswap (s : GameState) (pid : String) (oi : Int) (tid : String)
      (ti : Int) (now : Nat) : Step s (blindSwap s pid oi tid ti now).1
  | sswap (s : GameState) (pid : String) (oi : Int) (tid : String)
      (ti : Int) (now : Nat) : Step s (seeAndSwap s pid oi tid ti now).1
  | skip (s : GameState) (pid : String) : Step s (skipAction s pid)
  | clearPeek (s : GameState) (pid : String) :
      Step s (clearPeekAndNextTurn s pid)
  | slapStep (s : GameState) (pid : String) (i : Int) :
      Step s (slap s pid i).1
  | kabul (s : GameState) (pid : String) : Step s (callKabul s pid).1
  | memorizeEnd (s : GameState) : Step s (endMemorizePhase s)

/-- The state in which a fresh game starts: seats added in order to a
pristine instance, then `startGame`. -/
def bootState (gid : String) (seats : List (String × String))
    (js : List Nat) (now : Nat) : GameState :=
  (startGame (seats.foldl (fun st e => (addPlayer st e.1 e.2).1)
    (mkInitial gid)) js now).1

/-- Reachable in-game states: a booted game (2–13 seats with distinct
ids; 13 is the largest roster four-card dealing plus the discard
starter can serve from a 54-card deck) followed by any number of
completed engine calls. -/
inductive Reachable : GameState → Prop
  | boot (gid : String) (seats : List (String × String)) (js : List Nat)
      (now : Nat) (hn : 2 ≤ seats.length) (hle : seats.length ≤ 13)
      (hnd : (seats.map (·.1)).Nodup) :
      Reachable (bootState gid seats js now)
  | step {s s' : GameState} : Reachable s → Step s s' → Reachable s'

/-!  Card counting. -/

/-- Sum of all hand sizes. -/
def handsSumL (ps : List (String × Player)) : Nat :=
  (ps.map (fun e => e.2.hand.length)).sum

/-- The three-term sum named by the spec:
`|deck| + |discardPile| + Σ|hand_i|`. -/
def looseSum (s : GameState) : Nat :=
  s.deck.length + s.discardPile.length + handsSumL s.players

/-- `1` while a drawn card is held in the `drawnCard` record. -/
def drawnCount (s : GameState) : Nat :=
  if s.drawnCard.isSome then 1 else 0

/-- Every card container: deck, discard pile, hands, and the drawn-card
holding record. -/
def totalCards (s : GameState) : Nat :=
  looseSum s + drawnCount s

/-- The key list of a players map. -/
def keysOf (ps : List (String × Player)) : List String := ps.map (·.1)

/-!  Generic facts about the players-map operations. -/

theorem findP_cons (k : String) (v : Player) (t : List (String × Player))
    (pid : String) :
    findP ((k, v) :: t) pid = if k = pid then some v else findP t pid := by
  by_cases h : k = pid <;> simp [findP, List.find?_cons, h]

theorem setP_cons (k : String) (v : Player) (t : List (String × Player))
    (pid : String) (p : Player) :
    setP ((k, v) :: t) pid p =
      (if k = pid then (pid, p) else (k, v)) :: setP t pid p := by
  by_cases h : k = pid <;> simp [setP, h]

theorem keysOf_setP (ps : List (String × Player)) (pid : String)
    (p : Player) : keysOf (setP ps pid p) = keysOf ps := by
  induction ps with
  | nil => rfl
  | cons e t ih =>
    obtain ⟨k, v⟩ := e
    rw [setP_cons]
    by_cases h : k = pid <;> simp [keysOf, h] at ih ⊢ <;> exact ih

theorem setP_of_not_mem (ps : List (String × Player)) (pid : String)
    (p : Player) (h : pid ∉ keysOf ps) : setP ps pid p = ps := by
  induction ps with
  | nil => rfl
  | cons e t ih =>
    obtain ⟨k, v⟩ := e
    simp [keysOf] at h
    rw [setP_cons, if_neg (by simpa using fun hk => h.1 hk.symm)]
    exact congrArg _ (ih (by simpa [keysOf] using h.2))

theorem findP_setP_ne (ps : List (String × Player)) (pid pid2 : String)
    (p : Player) (h : pid2 ≠ pid) :
    findP (setP ps pid p) pid2 = findP ps pid2 := by
  induction ps with
  | nil => rfl
  | cons e t ih =>
    obtain ⟨k, v⟩ := e
    rw [setP_cons]
    by_cases hk : k = pid
    · rw [if_pos hk, findP_cons, findP_cons, if_neg (fun hh => h hh.symm),
        if_neg (fun hh => h (hk ▸ hh).symm)]
      exact ih
    · rw [if_neg hk, findP_cons, findP_cons]
      by_cases hk2 : k = pid2
      · simp [hk2]
      · simp only [if_neg hk2]
        exact ih

theorem findP_setP_self (ps : List (String × Player)) (pid : String)
    (p q : Player) (hfind : findP ps pid = some q) :
    findP (setP ps pid p) pid = some p := by
  induction ps with
  | nil => simp [findP] at hfind
  | cons e t ih =>
    obtain ⟨k, v⟩ := e
    rw [setP_cons]
    by_cases hk : k = pid
    · rw [if_pos hk, findP_cons, if_pos rfl]
    · rw [if_neg hk, findP_cons, if_neg hk]
      rw [findP_cons, if_neg hk] at hfind
      exact ih hfind

theorem map_len_setP (ps : List (String × Player)) (pid : String)
    (p q : Player) (hnd : (keysOf ps).Nodup)
    (hfind : findP ps pid = some q)
    (hlen : p.hand.length = q.hand.length) :
    (setP ps pid p).map (fun e => e.2.hand.length) =
      ps.map (fun e => e.2.hand.length) := by
  induction ps with
  | nil => rfl
  | cons e t ih =>
    obtain ⟨k, v⟩ := e
    simp only [keysOf, List.map_cons, List.nodup_cons] at hnd
    rw [findP_cons] at hfind
    rw [setP_cons]
    by_cases hk : k = pid
    · rw [if_pos hk]
      have hv : v = q := by simpa [hk] using hfind
      have ht : setP t pid p = t := setP_of_not_mem t pid p (hk ▸ hnd.1)
      simp [ht, hlen, hv]
    · rw [if_neg hk]
      rw [if_neg hk] at hfind
      simp only [List.map_cons]
      rw [ih hnd.2 hfind]

theorem handsSumL_setP (ps : List (String × Player)) (pid : String)
    (p q : Player) (hnd : (keysOf ps).Nodup)
    (hfind : findP ps pid = some q) :
    handsSumL (setP ps pid p) + q.hand.length =
      handsSumL ps + p.hand.length := by
  induction ps with
  | nil => simp [findP] at hfind
  | cons e t ih =>
    obtain ⟨k, v⟩ := e
    simp only [keysOf, List.map_cons, List.nodup_cons] at hnd
    rw [findP_cons] at hfind
    rw [setP_cons]
    by_cases hk : k = pid
    · rw [if_pos hk]
      have hv : v = q := by simpa [hk] using hfind
      have ht : setP t pid p = t := setP_of_not_mem t pid p (hk ▸ hnd.1)
      simp [handsSumL, ht, hv]
      omega
    · rw [if_neg hk]
      rw [if_neg hk] at hfind
      have := ih hnd.2 hfind
      simp [handsSumL] at this ⊢
      omega

theorem findP_mem_keys (ps : List (String × Player)) (pid : String)
    (q : Player) (hfind : findP ps pid = some q) : pid ∈ keysOf ps := by
  induction ps with
  | nil => simp [findP] at hfind
  | cons e t ih =>
    obtain ⟨k, v⟩ := e
    rw [findP_cons] at hfind
    by_cases hk : k = pid
    · simp [keysOf, hk]
    · rw [if_neg hk] at hfind
      simp [keysOf]
      exact Or.inr (by simpa [keysOf] using ih hfind)


theorem map_view_setP {α : Type} (f : Player → α)
    (ps : List (String × Player)) (pid : String) (p q : Player)
    (hnd : (keysOf ps).Nodup) (hfind : findP ps pid = some q)
    (hf : f p = f q) :
    (setP ps pid p).map (fun e => f e.2) = ps.map (fun e => f e.2) := by
  induction ps with
  | nil => rfl
  | cons e t ih =>
    obtain ⟨k, v⟩ := e
    simp only [keysOf, List.map_cons, List.nodup_cons] at hnd
    rw [findP_cons] at hfind
    rw [setP_cons]
    by_cases hk : k = pid
    · rw [if_pos hk]
      have hv : v = q := by simpa [hk] using hfind
      have ht : setP t pid p = t := setP_of_not_mem t pid p (hk ▸ hnd.1)
      simp [ht, hf, hv]
    · rw [if_neg hk]
      rw [if_neg hk] at hfind
      simp only [List.map_cons]
      rw [ih hnd.2 hfind]

/-- The hand profile a state carries: deck size, discard size, pending
drawn card, and the list of hand sizes. -/
def massView (s : GameState) : Nat × Nat × Nat × List Nat :=
  (s.deck.length, s.discardPile.length, drawnCount s,
   s.players.map (fun e => e.2.hand.length))

theorem totalCards_eq_massView (s : GameState) :
    totalCards s = s.deck.length + s.discardPile.length +
      (s.players.map (fun e => e.2.hand.length)).sum + drawnCount s := by
  simp [totalCards, looseSum, handsSumL]

theorem totalCards_congr (s t : GameState) (h : massView s = massView t) :
    totalCards s = totalCards t := by
  simp only [massView, Prod.mk.injEq] at h
  rw [totalCards_eq_massView, totalCards_eq_massView, h.1, h.2.1, h.2.2.1,
    h.2.2.2]

/-- The scoring loop of `_endGame` only rewrites players' `finalScore`
and accumulates the best score: the state keeps every other field, the
player keys, and every hand. -/
theorem foldl_scoreStep_shape (l : List String) :
    ∀ st : GameState × Option (String × Int),
    (keysOf st.1.players).Nodup →
    ∃ ps', (l.foldl scoreStep st).1 = { st.1 with players := ps' } ∧
      keysOf ps' = keysOf st.1.players ∧
      ps'.map (fun e => e.2.hand) = st.1.players.map (fun e => e.2.hand) := by
  induction l with
  | nil =>
    intro st h
    exact ⟨st.1.players, rfl, rfl, rfl⟩
  | cons a t ih =>
    intro st h
    have hone : ∃ qs, (scoreStep st a).1 = { st.1 with players := qs } ∧
        keysOf qs = keysOf st.1.players ∧
        qs.map (fun e => e.2.hand) = st.1.players.map (fun e => e.2.hand) := by
      unfold scoreStep
      match hf : findP st.1.players a with
      | none => exact ⟨st.1.players, by simp [hf], rfl, rfl⟩
      | some p =>
        have hkeys := keysOf_setP st.1.players a
          { p with finalScore := some (computeHandValue p.hand) }
        have hhand := map_view_setP (fun pl => pl.hand) st.1.players a
          { p with finalScore := some (computeHandValue p.hand) } p h hf rfl
        refine ⟨setP st.1.players a
          { p with finalScore := some (computeHandValue p.hand) }, ?_,
          hkeys, hhand⟩
        simp only [hf]
        match hb : st.2 with
        | none => rfl
        | some best => by_cases hlt : computeHandValue p.hand < best.2 <;>
            simp [hlt]
    obtain ⟨qs, hq, hqk, hqh⟩ := hone
    have hnd2 : (keysOf (scoreStep st a).1.players).Nodup := by
      rw [hq]; simpa [hqk] using h
    obtain ⟨ps', hp, hpk, hph⟩ := ih (scoreStep st a) hnd2
    refine ⟨ps', ?_, ?_, ?_⟩
    · rw [List.foldl_cons, hp, hq]
    · rw [hpk, hq, hqk]
    · rw [hph, hq, hqh]

/-- `_endGame` keeps every card where it is: it only fixes the phase,
writes final scores, and picks the winner. -/
theorem endGame_shape (s : GameState) (hnd : (keysOf s.players).Nodup) :
    ∃ ps' w, endGame s =
      { s with phase := Phase.ENDED, players := ps', winner := w } ∧
      keysOf ps' = keysOf s.players ∧
      ps'.map (fun e => e.2.hand) = s.players.map (fun e => e.2.hand) := by
  obtain ⟨ps', hp, hpk, hph⟩ := foldl_scoreStep_shape s.turnOrder
    ({ s with phase := Phase.ENDED }, none) (by simpa using hnd)
  refine ⟨ps',
    ((s.turnOrder.foldl scoreStep
      ({ s with phase := Phase.ENDED }, none)).2.map (·.1)), ?_,
    by simpa using hpk, by simpa using hph⟩
  have h2 := congrArg
    (fun st : GameState =>
      { st with winner := ((s.turnOrder.foldl scoreStep
          ({ s with phase := Phase.ENDED }, none)).2.map
            (fun b : String × Int => b.1)) }) hp
  exact h2

theorem hand_map_to_len (ps qs : List (String × Player))
    (h : ps.map (fun e => e.2.hand) = qs.map (fun e => e.2.hand)) :
    ps.map (fun e => e.2.hand.length) = qs.map (fun e => e.2.hand.length) := by
  have := congrArg (List.map List.length) h
  simpa [List.map_map, Function.comp] using this

theorem massView_endGame (s : GameState) (hnd : (keysOf s.players).Nodup) :
    massView (endGame s) = massView s := by
  obtain ⟨ps', w, he, hk, hh⟩ := endGame_shape s hnd
  rw [he]
  simp [massView, drawnCount, hand_map_to_len _ _ hh]

theorem keysOf_endGame (s : GameState) (hnd : (keysOf s.players).Nodup) :
    keysOf (endGame s).players = keysOf s.players := by
  obtain ⟨ps', w, he, hk, hh⟩ := endGame_shape s hnd
  rw [he]
  exact hk

theorem massView_nextTurn (s : GameState)
    (hnd : (keysOf s.players).Nodup) :
    massView (nextTurn s) = massView s := by
  simp only [nextTurn]
  split_ifs <;>
    first
      | rfl
      | exact Eq.trans (massView_endGame _ (by simpa using hnd)) rfl

theorem keysOf_nextTurn (s : GameState)
    (hnd : (keysOf s.players).Nodup) :
    keysOf (nextTurn s).players = keysOf s.players := by
  simp only [nextTurn]
  split_ifs <;>
    first
      | rfl
      | exact Eq.trans (keysOf_endGame _ (by simpa using hnd)) rfl


/-- `_resolveAction` only ever writes `pendingAction`. -/
theorem resolveAction_shape (s : GameState) (c : Card) (pid : String)
    (now : Nat) : ∃ pa, resolveAction s c pid now =
      { s with pendingAction := pa } := by
  simp only [resolveAction]
  split_ifs <;> exact ⟨_, rfl⟩

theorem total_drawCard (s : GameState) (pid src : String) :
    totalCards (drawCard s pid src).1 = totalCards s ∧
    (drawCard s pid src).1.players = s.players := by
  unfold drawCard
  split
  next e heq => exact And.intro rfl rfl
  next hv =>
    split
    next hd => exact And.intro rfl rfl
    next hd =>
      split
      next hsrc =>
        split
        next hdeck => exact And.intro rfl rfl
        next c rest hdeck =>
          refine And.intro ?_ rfl
          rw [totalCards_eq_massView, totalCards_eq_massView]
          simp [drawnCount, hd, hdeck]
          omega
      next hsrc =>
        split
        next hsrc2 =>
          split
          next heq2 => exact And.intro rfl rfl
          next c heq2 =>
            refine And.intro ?_ rfl
            have hne : s.discardPile.length ≠ 0 := by
              intro hh
              rw [List.length_eq_zero] at hh
              rw [hh] at heq2
              simp at heq2
            rw [totalCards_eq_massView, totalCards_eq_massView]
            simp [drawnCount, hd, List.length_dropLast]
            omega
        next hsrc2 => exact And.intro rfl rfl

theorem total_swapCard (s : GameState) (pid : String) (i : Int) (now : Nat)
    (hnd : (keysOf s.players).Nodup) :
    totalCards (swapCard s pid i now).1 = totalCards s ∧
    keysOf (swapCard s pid i now).1.players = keysOf s.players := by
  unfold swapCard
  split
  next e heq => exact And.intro rfl rfl
  next hv =>
    split
    next => exact And.intro rfl rfl
    next d hd =>
      by_cases hdp : d.playerId ≠ pid
      · rw [if_pos hdp]
        exact And.intro rfl rfl
      · rw [if_neg hdp]
        split
        next => exact And.intro rfl rfl
        next p hfind =>
          split_ifs with hr
          · exact And.intro rfl rfl
          · split
            next => exact And.intro rfl rfl
            next replaced hget =>
              dsimp only
              obtain ⟨pa, hra⟩ := resolveAction_shape
                { s with players := setP s.players pid { p with hand := p.hand.set i.toNat (d.card.withPos i.toNat) }
                         discardPile := s.discardPile ++ [replaced.toCard]
                         topDiscard := some replaced.toCard
                         drawnCard := none }
                replaced.toCard pid now
              simp only [addToDiscard] at hra ⊢
              rw [hra]
              have hlen : ({ p with hand := p.hand.set i.toNat (d.card.withPos i.toNat) } : Player).hand.length = p.hand.length := by
                simp [List.length_set]
              have hmap := map_view_setP (fun pl => pl.hand.length) s.players
                pid { p with hand := p.hand.set i.toNat (d.card.withPos i.toNat) } p hnd hfind hlen
              have hkeys := keysOf_setP s.players pid
                { p with hand := p.hand.set i.toNat (d.card.withPos i.toNat) }
              have hdrawn : drawnCount s = 1 := by simp [drawnCount, hd]
              split
              next hnopa =>
                constructor
                · rw [totalCards_congr _ _ (massView_nextTurn _
                    (by rw [keysOf_setP]; exact hnd)),
                    totalCards_eq_massView, totalCards_eq_massView]
                  simp only [keysOf] at hmap
                  simp [drawnCount, hd, hmap]
                  omega
                · rw [keysOf_nextTurn _
                    (by rw [keysOf_setP]; exact hnd)]
                  simpa [keysOf] using hkeys
              next hnopa =>
                constructor
                · rw [totalCards_eq_massView, totalCards_eq_massView]
                  simp only [keysOf] at hmap
                  simp [drawnCount, hd, hmap]
                  omega
                · simpa [keysOf] using hkeys

theorem total_discardDrawn (s : GameState) (pid : String) (now : Nat)
    (hnd : (keysOf s.players).Nodup) :
    totalCards (discardDrawn s pid now).1 = totalCards s ∧
    keysOf (discardDrawn s pid now).1.players = keysOf s.players := by
  unfold discardDrawn
  split
  next e heq => exact And.intro rfl rfl
  next hv =>
    split
    next => exact And.intro rfl rfl
    next d hd =>
      by_cases hdp : d.playerId ≠ pid
      · rw [if_pos hdp]
        exact And.intro rfl rfl
      · rw [if_neg hdp]
        dsimp only
        obtain ⟨pa, hra⟩ := resolveAction_shape
          { s with discardPile := s.discardPile ++ [d.card]
                   topDiscard := some d.card
                   drawnCard := none }
          d.card pid now
        simp only [addToDiscard] at hra ⊢
        rw [hra]
        have hdrawn : drawnCount s = 1 := by simp [drawnCount, hd]
        split
        next hnopa =>
          constructor
          · rw [totalCards_congr _ _ (massView_nextTurn _
              (by simpa [keysOf] using hnd)),
              totalCards_eq_massView, totalCards_eq_massView]
            simp [drawnCount, hd]
            omega
          · rw [keysOf_nextTurn _ (by simpa [keysOf] using hnd)]
        next hnopa =>
          constructor
          · rw [totalCards_eq_massView, totalCards_eq_massView]
            simp [drawnCount, hd]
            omega
          · rfl


/-- `_validatePendingAction` either leaves the state alone or clears an
expired `pendingAction`. -/
theorem vpa_shape (s : GameState) (pid : String) (t : AState) (now : Nat) :
    (validatePendingAction s pid t now).1 = s ∨
    (validatePendingAction s pid t now).1 =
      { s with pendingAction := none } := by
  unfold validatePendingAction
  split
  · exact Or.inl rfl
  · split_ifs <;> first | exact Or.inl rfl | exact Or.inr rfl

theorem total_peekOwnCard (s : GameState) (pid : String) (i : Int)
    (now : Nat) :
    totalCards (peekOwnCard s pid i now).1 = totalCards s ∧
    (peekOwnCard s pid i now).1.players = s.players := by
  have hsh := vpa_shape s pid AState.CHOOSING_OWN_CARD_TO_PEEK now
  unfold peekOwnCard
  split
  next s' e heq =>
    rw [heq] at hsh
    dsimp only at hsh
    rcases hsh with h | h <;> subst h <;> exact And.intro rfl rfl
  next s' heq =>
    rw [heq] at hsh
    dsimp only at hsh
    rcases hsh with h | h <;> subst h <;>
      (split
       case _ => exact And.intro rfl rfl
       case _ p hfp =>
         split_ifs with hr
         · exact And.intro rfl rfl
         · split <;> exact And.intro rfl rfl)

theorem total_peekEnemyCard (s : GameState) (pid tid : String) (i : Int)
    (now : Nat) :
    totalCards (peekEnemyCard s pid tid i now).1 = totalCards s ∧
    (peekEnemyCard s pid tid i now).1.players = s.players := by
  have hsh := vpa_shape s pid AState.CHOOSING_ENEMY_CARD_TO_PEEK now
  unfold peekEnemyCard
  split
  next s' e heq =>
    rw [heq] at hsh
    dsimp only at hsh
    rcases hsh with h | h <;> subst h <;> exact And.intro rfl rfl
  next s' heq =>
    rw [heq] at hsh
    dsimp only at hsh
    rcases hsh with h | h <;> subst h <;>
      (split_ifs with hself
       · exact And.intro rfl rfl
       · split
         case _ => exact And.intro rfl rfl
         case _ p hfp =>
           split_ifs with hr
           · exact And.intro rfl rfl
           · split <;> exact And.intro rfl rfl)

theorem total_endMemorize (s : GameState) :
    totalCards (endMemorizePhase s) = totalCards s ∧
    (endMemorizePhase s).players = s.players := by
  unfold endMemorizePhase
  split_ifs <;> exact And.intro rfl rfl

theorem total_skipAction (s : GameState) (pid : String)
    (hnd : (keysOf s.players).Nodup) :
    totalCards (skipAction s pid) = totalCards s ∧
    keysOf (skipAction s pid).players = keysOf s.players := by
  unfold skipAction
  split
  next pending heq =>
    split_ifs with hp
    · constructor
      · exact (totalCards_congr _ _ (massView_nextTurn _
          (by simpa [keysOf] using hnd))).trans rfl
      · rw [keysOf_nextTurn _ (by simpa [keysOf] using hnd)]
    · exact And.intro rfl rfl
  next heq => exact And.intro rfl rfl

theorem total_clearPeek (s : GameState) (pid : String)
    (hnd : (keysOf s.players).Nodup) :
    totalCards (clearPeekAndNextTurn s pid) = totalCards s ∧
    keysOf (clearPeekAndNextTurn s pid).players = keysOf s.players := by
  unfold clearPeekAndNextTurn
  split
  next pending heq =>
    split_ifs with hp
    · constructor
      · exact (totalCards_congr _ _ (massView_nextTurn _
          (by simpa [keysOf] using hnd))).trans rfl
      · rw [keysOf_nextTurn _ (by simpa [keysOf] using hnd)]
    · exact And.intro rfl rfl
  next heq => exact And.intro rfl rfl

theorem total_callKabul (s : GameState) (pid : String)
    (hnd : (keysOf s.players).Nodup) :
    totalCards (callKabul s pid).1 = totalCards s ∧
    keysOf (callKabul s pid).1.players = keysOf s.players := by
  unfold callKabul
  split
  next e heq => exact And.intro rfl rfl
  next hv =>
    split_ifs with hd
    · exact And.intro rfl rfl
    · split
      next => exact And.intro rfl rfl
      next p hfp =>
        dsimp only
        have hmap := map_view_setP (fun pl => pl.hand.length) s.players pid
          { p with hasCalledKabul := true } p hnd hfp rfl
        have hkeys := keysOf_setP s.players pid { p with hasCalledKabul := true }
        constructor
        · rw [totalCards_eq_massView, totalCards_eq_massView]
          simp only [keysOf] at hmap
          simp [drawnCount, hmap]
        · simpa [keysOf] using hkeys

theorem total_blindSwap (s : GameState) (pid : String) (oi : Int)
    (tid : String) (ti : Int) (now : Nat)
    (hnd : (keysOf s.players).Nodup) :
    totalCards (blindSwap s pid oi tid ti now).1 = totalCards s ∧
    keysOf (blindSwap s pid oi tid ti now).1.players = keysOf s.players := by
  have hsh := vpa_shape s pid AState.SWAPPING_CARDS now
  unfold blindSwap
  split
  next s' e heq =>
    rw [heq] at hsh
    dsimp only at hsh
    rcases hsh with h | h <;> subst h <;> exact And.intro rfl rfl
  next s' heq =>
    rw [heq] at hsh
    dsimp only at hsh
    rcases hsh with h | h <;> subst s' <;>
      (split_ifs with hself
       · exact And.intro rfl rfl
       · split
         case _ => exact And.intro rfl rfl
         case _ hfp => exact And.intro rfl rfl
         case _ p target hfp hft =>
           split_ifs with hro hrt
           · exact And.intro rfl rfl
           · exact And.intro rfl rfl
           · split
             case _ oc tc hgo hgt =>
               dsimp only
               have hlen1 : ({ p with hand := p.hand.set oi.toNat (tc.toCard.withPos oi.toNat) } : Player).hand.length = p.hand.length := by
                 simp [List.length_set]
               have hmap1 := map_view_setP (fun pl => pl.hand.length) _ pid
                 { p with hand := p.hand.set oi.toNat (tc.toCard.withPos oi.toNat) } p hnd hfp hlen1
               have hft2 : findP (setP s.players pid { p with hand := p.hand.set oi.toNat (tc.toCard.withPos oi.toNat) }) tid = some target := by
                 rw [findP_setP_ne _ _ _ _ (fun hh => hself hh)]
                 exact hft
               have hnd2 : (keysOf (setP s.players pid { p with hand := p.hand.set oi.toNat (tc.toCard.withPos oi.toNat) })).Nodup := by
                 rw [keysOf_setP]; exact hnd
               have hlen2 : ({ target with hand := target.hand.set ti.toNat (oc.toCard.withPos ti.toNat) } : Player).hand.length = target.hand.length := by
                 simp [List.length_set]
               have hmap2 := map_view_setP (fun pl => pl.hand.length) _ tid
                 { target with hand := target.hand.set ti.toNat (oc.toCard.withPos ti.toNat) } target hnd2 hft2 hlen2
               have hnd3 : (keysOf (setP (setP s.players pid { p with hand := p.hand.set oi.toNat (tc.toCard.withPos oi.toNat) }) tid { target with hand := target.hand.set ti.toNat (oc.toCard.withPos ti.toNat) })).Nodup := by
                 rw [keysOf_setP, keysOf_setP]; exact hnd
               constructor
               · refine (totalCards_congr _ _ (massView_nextTurn _ hnd3)).trans ?_
                 rw [totalCards_eq_massView, totalCards_eq_massView]
                 simp only [keysOf] at hmap1 hmap2
                 simp [drawnCount, hmap1, hmap2]
               · rw [keysOf_nextTurn _ hnd3]
                 simp [keysOf_setP]
             case _ hgg => exact And.intro rfl rfl)

theorem total_seeAndSwap (s : GameState) (pid : String) (oi : Int)
    (tid : String) (ti : Int) (now : Nat)
    (hnd : (keysOf s.players).Nodup) :
    totalCards (seeAndSwap s pid oi tid ti now).1 = totalCards s ∧
    keysOf (seeAndSwap s pid oi tid ti now).1.players = keysOf s.players := by
  have hsh := vpa_shape s pid AState.SEE_AND_SWAPPING_CARDS now
  unfold seeAndSwap
  split
  next s' e heq =>
    rw [heq] at hsh
    dsimp only at hsh
    rcases hsh with h | h <;> subst h <;> exact And.intro rfl rfl
  next s' heq =>
    rw [heq] at hsh
    dsimp only at hsh
    rcases hsh with h | h <;> subst s' <;>
      (split_ifs with hself
       · exact And.intro rfl rfl
       · split
         case _ => exact And.intro rfl rfl
         case _ hfp => exact And.intro rfl rfl
         case _ p target hfp hft =>
           split_ifs with hro hrt
           · exact And.intro rfl rfl
           · exact And.intro rfl rfl
           · split
             case _ oc tc hgo hgt =>
               dsimp only
               have hlen1 : ({ p with hand := p.hand.set oi.toNat (tc.toCard.withPos oi.toNat) } : Player).hand.length = p.hand.length := by
                 simp [List.length_set]
               have hmap1 := map_view_setP (fun pl => pl.hand.length) _ pid
                 { p with hand := p.hand.set oi.toNat (tc.toCard.withPos oi.toNat) } p hnd hfp hlen1
               have hft2 : findP (setP s.players pid { p with hand := p.hand.set oi.toNat (tc.toCard.withPos oi.toNat) }) tid = some target := by
                 rw [findP_setP_ne _ _ _ _ (fun hh => hself hh)]
                 exact hft
               have hnd2 : (keysOf (setP s.players pid { p with hand := p.hand.set oi.toNat (tc.toCard.withPos oi.toNat) })).Nodup := by
                 rw [keysOf_setP]; exact hnd
               have hlen2 : ({ target with hand := target.hand.set ti.toNat (oc.toCard.withPos ti.toNat) } : Player).hand.length = target.hand.length := by
                 simp [List.length_set]
               have hmap2 := map_view_setP (fun pl => pl.hand.length) _ tid
                 { target with hand := target.hand.set ti.toNat (oc.toCard.withPos ti.toNat) } target hnd2 hft2 hlen2
               have hnd3 : (keysOf (setP (setP s.players pid { p with hand := p.hand.set oi.toNat (tc.toCard.withPos oi.toNat) }) tid { target with hand := target.hand.set ti.toNat (oc.toCard.withPos ti.toNat) })).Nodup := by
                 rw [keysOf_setP, keysOf_setP]; exact hnd
               constructor
               · refine (totalCards_congr _ _ (massView_nextTurn _ hnd3)).trans ?_
                 rw [totalCards_eq_massView, totalCards_eq_massView]
                 simp only [keysOf] at hmap1 hmap2
                 simp [drawnCount, hmap1, hmap2]
               · rw [keysOf_nextTurn _ hnd3]
                 simp [keysOf_setP]
             case _ hgg => exact And.intro rfl rfl)

theorem total_slap (s : GameState) (pid : String) (i : Int)
    (hnd : (keysOf s.players).Nodup) :
    totalCards (slap s pid i).1 = totalCards s ∧
    keysOf (slap s pid i).1.players = keysOf s.players := by
  unfold slap
  split_ifs with hph
  · exact And.intro rfl rfl
  · split
    next => exact And.intro rfl rfl
    next p hfp =>
      split_ifs with hr
      · exact And.intro rfl rfl
      · split
        next => exact And.intro rfl rfl
        next card hget =>
          have hlt : i.toNat < p.hand.length := by
            rcases List.get?_eq_some.mp hget with ⟨hh, _⟩
            exact hh
          split_ifs with hmatch
          · -- successful slap: card leaves the hand for the pile
            dsimp only
            have hlen : (((p.hand.eraseIdx i.toNat).mapIdx (fun k c => { c with position := k }))).length = p.hand.length - 1 := by
              rw [List.length_mapIdx, List.length_eraseIdx_of_lt hlt]
            have hsum := handsSumL_setP s.players pid
              { p with hand := (p.hand.eraseIdx i.toNat).mapIdx (fun k c => { c with position := k }) } p hnd hfp
            have hkeys := keysOf_setP s.players pid
              { p with hand := (p.hand.eraseIdx i.toNat).mapIdx (fun k c => { c with position := k }) }
            constructor
            · rw [totalCards_eq_massView, totalCards_eq_massView]
              simp only [addToDiscard]
              simp only [handsSumL] at hsum
              simp only [hlen] at hsum
              simp [drawnCount]
              omega
            · simp only [addToDiscard]
              simpa [keysOf] using hkeys
          · split
            next hdeck => exact And.intro rfl rfl
            next penalty rest hdeck =>
              dsimp only
              have hsum := handsSumL_setP s.players pid
                { p with hand := p.hand ++ [penalty.withPos p.hand.length] } p hnd hfp
              have hkeys := keysOf_setP s.players pid
                { p with hand := p.hand ++ [penalty.withPos p.hand.length] }
              constructor
              · rw [totalCards_eq_massView, totalCards_eq_massView]
                simp only [handsSumL] at hsum
                simp [drawnCount, hdeck]
                simp at hsum
                omega
              · simpa [keysOf] using hkeys


/-- Every single completed engine call conserves the generalized card
count and the roster of player keys. -/
theorem step_total {s s' : GameState} (h : Step s s')
    (hnd : (keysOf s.players).Nodup) :
    totalCards s' = totalCards s ∧ keysOf s'.players = keysOf s.players := by
  cases h with
  | draw pid src =>
    have h := total_drawCard s pid src
    exact ⟨h.1, by unfold keysOf; rw [h.2]⟩
  | swap pid i now => exact total_swapCard s pid i now hnd
  | discard pid now => exact total_discardDrawn s pid now hnd
  | peekOwn pid i now =>
    have h := total_peekOwnCard s pid i now
    exact ⟨h.1, by unfold keysOf; rw [h.2]⟩
  | peekEnemy pid tid i now =>
    have h := total_peekEnemyCard s pid tid i now
    exact ⟨h.1, by unfold keysOf; rw [h.2]⟩
  | bswap pid oi tid ti now => exact total_blindSwap s pid oi tid ti now hnd
  | sswap pid oi tid ti now => exact total_seeAndSwap s pid oi tid ti now hnd
  | skip pid => exact total_skipAction s pid hnd
  | clearPeek pid => exact total_clearPeek s pid hnd
  | slapStep pid i => exact total_slap s pid i hnd
  | kabul pid => exact total_callKabul s pid hnd
  | memorizeEnd =>
    have h := total_endMemorize s
    exact ⟨h.1, by unfold keysOf; rw [h.2]⟩

/-!  Fisher-Yates is a permutation (claim C9 groundwork). -/

theorem count_set_aux {α : Type} [DecidableEq α] :
    ∀ (l : List α) (i : Nat) (h : i < l.length) (a x : α),
    (l.set i a).count x + (if l.get ⟨i, h⟩ = x then 1 else 0) =
      l.count x + (if a = x then 1 else 0) := by
  intro l
  induction l with
  | nil => intro i h; simp at h
  | cons c t ih =>
    intro i h a x
    match i with
    | 0 =>
      show ((c :: t).set 0 a).count x + (if c = x then 1 else 0) = _
      simp only [List.set_cons_zero, List.count_cons, beq_iff_eq]
      omega
    | k + 1 =>
      have ih2 := ih k (Nat.lt_of_succ_lt_succ h) a x
      show ((c :: t).set (k + 1) a).count x +
        (if t.get ⟨k, Nat.lt_of_succ_lt_succ h⟩ = x then 1 else 0) = _
      simp only [List.set_cons_succ, List.count_cons, beq_iff_eq]
      omega

theorem set_get_self {α : Type} (l : List α) (i : Nat) (h : i < l.length) :
    l.set i (l.get ⟨i, h⟩) = l := by
  apply List.ext_getElem
  · simp
  · intro k hk hk2
    rw [List.getElem_set]
    split
    next hik => subst hik; rfl
    next => rfl

theorem swap_set_perm {α : Type} [DecidableEq α] (l : List α) (i j : Nat)
    (hi : i < l.length) (hj : j < l.length) :
    ((l.set i (l.get ⟨j, hj⟩)).set j (l.get ⟨i, hi⟩)).Perm l := by
  by_cases hij : i = j
  · subst hij
    rw [List.set_set, set_get_self]
  · rw [List.perm_iff_count]
    intro x
    have hj2 : j < (l.set i (l.get ⟨j, hj⟩)).length := by simpa using hj
    have c2 := count_set_aux (l.set i (l.get ⟨j, hj⟩)) j hj2
      (l.get ⟨i, hi⟩) x
    have c1 := count_set_aux l i hi (l.get ⟨j, hj⟩) x
    have hgj : (l.set i (l.get ⟨j, hj⟩)).get ⟨j, hj2⟩ = l.get ⟨j, hj⟩ := by
      simp only [List.get_eq_getElem]
      exact List.getElem_set_ne hij _
    rw [hgj] at c2
    simp only [List.get_eq_getElem] at c1 c2 ⊢
    by_cases e1 : l[i] = x <;> by_cases e2 : l[j] = x <;>
      simp [e1, e2] at c1 c2 ⊢ <;> omega

/-- One JS destructuring swap permutes the list (and out of range it is
the identity, though `_shuffleDeck` never strays out of range). -/
theorem swapIdx_perm {α : Type} [DecidableEq α] (l : List α) (i j : Nat) :
    (swapIdx l i j).Perm l := by
  unfold swapIdx
  split
  next a b h1 h2 =>
    have hi : i < l.length := by
      rcases List.get?_eq_some.mp h1 with ⟨hh, _⟩; exact hh
    have hj : j < l.length := by
      rcases List.get?_eq_some.mp h2 with ⟨hh, _⟩; exact hh
    have ha : l.get ⟨i, hi⟩ = a := by
      have h3 := List.get?_eq_get hi
      rw [h1] at h3
      exact Option.some.inj h3.symm
    have hb : l.get ⟨j, hj⟩ = b := by
      have h3 := List.get?_eq_get hj
      rw [h2] at h3
      exact Option.some.inj h3.symm
    rw [← ha, ← hb]
    exact swap_set_perm l i j hi hj
  next => exact List.Perm.refl l

/-- The whole Fisher-Yates loop permutes the list, for every choice
sequence. -/
theorem fisherYates_perm {α : Type} [DecidableEq α] :
    ∀ (js : List Nat) (l : List α) (i : Nat),
    (fisherYates l i js).Perm l := by
  intro js
  induction js with
  | nil =>
    intro l i
    match i with
    | 0 => exact List.Perm.refl l
    | k + 1 => exact List.Perm.refl l
  | cons j rest ih =>
    intro l i
    match i with
    | 0 => exact List.Perm.refl l
    | k + 1 =>
      exact (ih (swapIdx l (k + 1) j) k).trans (swapIdx_perm l (k + 1) j)

theorem fisherYates_length {α : Type} [DecidableEq α] (js : List Nat)
    (l : List α) (i : Nat) : (fisherYates l i js).length = l.length :=
  (fisherYates_perm js l i).length_eq


/-!  Analysis of the game-start pipeline. -/

/-- The player record `addPlayer` creates. -/
def freshPlayer (e : String × String) : Player :=
  { id := e.1, name := e.2, hand := [], hasCalledKabul := false,
    isConnected := true, finalScore := none }

theorem addSeats_spec (seats : List (String × String)) :
    ∀ st : GameState, st.phase = Phase.WAITING →
    (seats.foldl (fun st e => (addPlayer st e.1 e.2).1) st) =
      { st with
          players := st.players ++ seats.map (fun e => (e.1, freshPlayer e))
          turnOrder := st.turnOrder ++ seats.map (·.1) } := by
  induction seats with
  | nil => intro st hph; simp
  | cons e t ih =>
    intro st hph
    have hstep : (addPlayer st e.1 e.2).1 =
        { st with players := st.players ++ [(e.1, freshPlayer e)]
                  turnOrder := st.turnOrder ++ [e.1] } := by
      unfold addPlayer
      rw [if_neg (by simp [hph])]
      rfl
    rw [List.foldl_cons, hstep, ih _ (by simp [hph])]
    simp

theorem deal_fold (l : List String) :
    ∀ st : GameState, (keysOf st.players).Nodup → l.Nodup →
    (∀ pid ∈ l, ∃ p, findP st.players pid = some p ∧ p.hand = []) →
    4 * l.length ≤ st.deck.length →
    (l.foldl dealStep st).deck.length = st.deck.length - 4 * l.length ∧
    handsSumL (l.foldl dealStep st).players =
      handsSumL st.players + 4 * l.length ∧
    keysOf (l.foldl dealStep st).players = keysOf st.players ∧
    (l.foldl dealStep st).discardPile = st.discardPile ∧
    (l.foldl dealStep st).drawnCard = st.drawnCard ∧
    (l.foldl dealStep st).phase = st.phase ∧
    (l.foldl dealStep st).turnOrder = st.turnOrder := by
  induction l with
  | nil =>
    intro st h1 h2 h3 h4
    simp
  | cons a t ih =>
    intro st h1 h2 h3 h4
    obtain ⟨p, hfp, hemp⟩ := h3 a (by simp)
    simp only [List.length_cons] at h4
    have hstep : dealStep st a =
        { st with deck := st.deck.drop 4
                  players := setP st.players a { p with hand := (st.deck.take 4).mapIdx (fun i c => c.withPos i) } } := by
      unfold dealStep
      rw [hfp]
    have hnewlen : ((st.deck.take 4).mapIdx (fun i c => c.withPos i)).length = 4 := by
      rw [List.length_mapIdx, List.length_take]
      omega
    have hkeys := keysOf_setP st.players a
      { p with hand := (st.deck.take 4).mapIdx (fun i c => c.withPos i) }
    have hsum := handsSumL_setP st.players a
      { p with hand := (st.deck.take 4).mapIdx (fun i c => c.withPos i) } p h1 hfp
    have h2t : t.Nodup := (List.nodup_cons.mp h2).2
    have hanot : a ∉ t := (List.nodup_cons.mp h2).1
    have ihyp := ih (dealStep st a)
      (by rw [hstep]; simpa [keysOf_setP] using h1)
      h2t
      (by
        intro pid hmem
        obtain ⟨q, hfq, hq⟩ := h3 pid (by simp [hmem])
        refine ⟨q, ?_, hq⟩
        rw [hstep]
        show findP (setP st.players a _) pid = some q
        rw [findP_setP_ne _ _ _ _ (fun hh => hanot (by rw [← hh]; exact hmem))]
        exact hfq)
      (by rw [hstep]; simp [List.length_drop]; omega)
    rw [List.foldl_cons]
    have hdiv : (dealStep st a).deck.length = st.deck.length - 4 := by
      rw [hstep]; simp [List.length_drop]
    have hsum2 : handsSumL (dealStep st a).players =
        handsSumL st.players + 4 := by
      rw [hstep]
      show handsSumL (setP st.players a { p with hand := (st.deck.take 4).mapIdx (fun i c => c.withPos i) }) = handsSumL st.players + 4
      rw [hemp] at hsum
      simp only [List.length_nil, hnewlen] at hsum
      omega
    refine ⟨?_, ?_, ?_, ?_, ?_, ?_, ?_⟩
    · rw [ihyp.1, hdiv]
      simp only [List.length_cons]
      omega
    · rw [ihyp.2.1, hsum2]
      simp only [List.length_cons]
      omega
    · rw [ihyp.2.2.1, hstep]
      simpa using hkeys
    · rw [ihyp.2.2.2.1, hstep]
    · rw [ihyp.2.2.2.2.1, hstep]
    · rw [ihyp.2.2.2.2.2.1, hstep]
    · rw [ihyp.2.2.2.2.2.2, hstep]

theorem fullDeck_length : fullDeck.length = 54 := by decide

theorem findP_of_fresh (seats : List (String × String)) (pid : String)
    (hmem : pid ∈ seats.map (·.1)) :
    ∃ p, findP (seats.map (fun e => (e.1, freshPlayer e))) pid = some p ∧
      p.hand = [] := by
  induction seats with
  | nil => simp at hmem
  | cons e t ih =>
    simp only [List.map_cons, List.mem_cons] at hmem
    rw [List.map_cons, findP_cons]
    by_cases hk : e.1 = pid
    · exact ⟨freshPlayer e, by rw [if_pos hk], rfl⟩
    · rcases hmem with hmem | hmem
      · exact absurd hmem.symm hk
      · rw [if_neg hk]
        exact ih hmem

/-- The freshly booted game has all 54 cards distributed over deck,
hands, and the discard starter, with no drawn card, and carries a
duplicate-free roster. -/
theorem totalCards_boot (gid : String) (seats : List (String × String))
    (js : List Nat) (now : Nat) (hn : 2 ≤ seats.length)
    (hle : seats.length ≤ 13) (hnd : (seats.map (·.1)).Nodup) :
    totalCards (bootState gid seats js now) = 54 ∧
    (keysOf (bootState gid seats js now).players).Nodup := by
  have hA := addSeats_spec seats (mkInitial gid) rfl
  set A := seats.foldl (fun st e => (addPlayer st e.1 e.2).1) (mkInitial gid)
    with hAdef
  have hAp : A.players = seats.map (fun e => (e.1, freshPlayer e)) := by
    rw [hA]; simp [mkInitial]
  have hAt : A.turnOrder = seats.map (·.1) := by
    rw [hA]; simp [mkInitial]
  have hAd : A.deck = [] := by rw [hA]; rfl
  have hAdis : A.discardPile = [] := by rw [hA]; rfl
  have hAdr : A.drawnCard = none := by rw [hA]; rfl
  have hkeysA : keysOf A.players = seats.map (·.1) := by
    rw [hAp]
    simp [keysOf, List.map_map, Function.comp]
  -- the shuffled full deck
  set B := shuffleDeck (initDeck A) js with hBdef
  have hBdeck : B.deck.length = 54 := by
    rw [hBdef]
    show (fisherYates (initDeck A).deck ((initDeck A).deck.length - 1) js).length = 54
    rw [fisherYates_length]
    show fullDeck.length = 54
    exact fullDeck_length
  have hBp : B.players = A.players := rfl
  have hBt : B.turnOrder = A.turnOrder := rfl
  -- dealing
  have hdeal := deal_fold B.turnOrder B
    (by rw [hBp, hkeysA]; exact hnd)
    (by rw [hBt, hAt]; exact hnd)
    (by
      intro pid hmem
      rw [hBt, hAt] at hmem
      rw [hBp, hAp]
      exact findP_of_fresh seats pid hmem)
    (by
      rw [hBdeck, hBt, hAt, List.length_map]
      omega)
  set C := B.turnOrder.foldl dealStep B with hCdef
  have hseatlen : B.turnOrder.length = seats.length := by
    rw [hBt, hAt, List.length_map]
  have hCdeck : C.deck.length = 54 - 4 * seats.length := by
    rw [hdeal.1, hBdeck, hseatlen]
  have hCsum : handsSumL C.players = 4 * seats.length := by
    rw [hdeal.2.1, hseatlen, hBp, hAp]
    have hz : handsSumL (seats.map (fun e => (e.1, freshPlayer e))) = 0 := by
      unfold handsSumL
      rw [List.map_map]
      have hc : ((fun (e : String × Player) => e.2.hand.length) ∘
          fun e => (e.1, freshPlayer e)) = fun _ => 0 := by
        funext e
        rfl
      rw [hc]
      simp
    rw [hz]
    omega
  have hCdis : C.discardPile = [] := by rw [hdeal.2.2.2.1, hBdef]; exact hAdis
  have hCdr : C.drawnCard = none := by rw [hdeal.2.2.2.2.1, hBdef]; exact hAdr
  have hCkeys : keysOf C.players = seats.map (·.1) := by
    rw [hdeal.2.2.1, hBp, hkeysA]
  -- the discard starter
  have hCne : C.deck ≠ [] := by
    intro hh
    rw [hh] at hCdeck
    simp at hCdeck
    omega
  obtain ⟨c0, rest, hsplit⟩ : ∃ c0 rest, C.deck = c0 :: rest := by
    match hd : C.deck with
    | [] => exact absurd hd hCne
    | c0 :: rest => exact ⟨c0, rest, rfl⟩
  have hD : initDiscard C = { C with deck := rest, discardPile := C.discardPile ++ [c0], topDiscard := some c0 } := by
    unfold initDiscard
    split
    next hdd => rw [hdd] at hsplit; exact absurd hsplit.symm (by simp)
    next c1 rest1 hdd =>
      rw [hdd] at hsplit
      have hc : c1 = c0 := (List.cons.injEq _ _ _ _ ▸ hsplit).1
      have hr : rest1 = rest := (List.cons.injEq _ _ _ _ ▸ hsplit).2
      rw [hc, hr]
  have hrest : rest.length = 54 - 4 * seats.length - 1 := by
    have := hCdeck
    rw [hsplit] at this
    simp at this
    omega
  -- startGame assembles the boot state
  have hboot : bootState gid seats js now =
      { initDiscard C with phase := Phase.MEMORIZE, memorizeEndsAt := some (now + 3000) } := by
    unfold bootState startGame
    rw [if_neg (by rw [← hAdef, hAt, List.length_map]; omega)]
    rfl
  rw [hboot, hD]
  constructor
  · rw [totalCards_eq_massView]
    show rest.length + (C.discardPile ++ [c0]).length +
      (C.players.map (fun e => e.2.hand.length)).sum + drawnCount _ = 54
    have hdc : drawnCount { C with deck := rest, discardPile := C.discardPile ++ [c0], topDiscard := some c0, phase := Phase.MEMORIZE, memorizeEndsAt := some (now + 3000) } = 0 := by
      simp [drawnCount, hCdr]
    rw [hCdis]
    simp only [handsSumL] at hCsum
    simp [hrest, hCsum, drawnCount, hCdr]
    omega
  · show (keysOf C.players).Nodup
    rw [hCkeys]
    exact hnd

/-- Reachability invariant: a duplicate-free roster and the 54-card
conservation law. -/
theorem reachable_inv (s : GameState) (h : Reachable s) :
    (keysOf s.players).Nodup ∧ totalCards s = 54 := by
  induction h with
  | boot gid seats js now hn hle hnd =>
    have := totalCards_boot gid seats js now hn hle hnd
    exact ⟨this.2, this.1⟩
  | step hs hstep ih =>
    have h2 := step_total hstep ih.1
    exact ⟨by rw [h2.2]; exact ih.1, by rw [h2.1]; exact ih.2⟩


/-!  Claim C1. -/

/-- A concrete two-player table. -/
def seats2 : List (String × String) := [("A", "Alice"), ("B", "Bob")]

/-- A concrete booted game (empty choice list: the Fisher-Yates loop
leaves the deck in generation order). -/
def cexBoot : GameState := bootState "g" seats2 [] 0

/-- The same game once the memorize window has closed. -/
def cexPlaying : GameState := endMemorizePhase cexBoot

/-- The state after player A completes a draw from the deck. -/
def cexDrawn : GameState := (drawCard cexPlaying "A" "deck").1

/-- C1 is false as stated: in a reachable state right after a completed,
successful draw action, the spec's three-term sum
`|deck| + |discardPile| + Σ|hand_i|` is 53, not 54 — the drawn card sits
in the `drawnCard` holding record, outside all three containers. -/
theorem C1_counterexample :
    Reachable cexDrawn ∧
    (drawCard cexPlaying "A" "deck").2.isOk = true ∧
    looseSum cexDrawn = 53 := by
  refine ⟨?_, by decide, by decide⟩
  exact Reachable.step
    (Reachable.step
      (Reachable.boot "g" seats2 [] 0 (by decide) (by decide) (by decide))
      (Step.memorizeEnd cexBoot))
    (Step.draw cexPlaying "A" "deck")

/-- C1 (amended): in every reachable state — hence after every single
completed action — the deck, the discard pile, all hands, and the
at-most-one pending `drawnCard` record together hold exactly 54 cards:
`|deck| + |discardPile| + Σ|hand_i| + (1 if drawnCard else 0) = 54`. -/
theorem C1_card_conservation (s : GameState) (h : Reachable s) :
    looseSum s + drawnCount s = 54 :=
  (reachable_inv s h).2

/-- Witness for C1: the conservation law evaluated on the concrete
just-drawn state. -/
theorem C1_card_conservation_witness :
    looseSum cexDrawn + drawnCount cexDrawn = 54 :=
  C1_card_conservation cexDrawn
    (Reachable.step
      (Reachable.step
        (Reachable.boot "g" seats2 [] 0 (by decide) (by decide) (by decide))
        (Step.memorizeEnd cexBoot))
      (Step.draw cexPlaying "A" "deck"))

/-!  Claim C9. -/

/-- C9: for every input deck and every sequence of random choices, the
shuffled deck is a permutation of the input deck — the same card
identities with the same multiplicities, in some order. -/
theorem C9_shuffle_is_permutation (s : GameState) (js : List Nat) :
    (shuffleDeck s js).deck.Perm s.deck ∧
    ∀ c : Card, (shuffleDeck s js).deck.count c = s.deck.count c := by
  have hp : (shuffleDeck s js).deck.Perm s.deck :=
    fisherYates_perm js s.deck (s.deck.length - 1)
  exact ⟨hp, fun c => hp.count_eq c⟩

/-!  Claims C4 and C5. -/

theorem validateTurn_none_iff (s : GameState) (pid : String) :
    validateTurn s pid = none ↔
      (s.phase = Phase.PLAYING ∧ getCurrentPlayerId s = some pid) := by
  unfold validateTurn
  split_ifs with h1 h2 <;> simp_all

/-- C4: `drawCard` fails exactly when it is not the player's turn (wrong
phase or wrong actor), a drawn card is already pending, or the chosen
source is empty (or unknown); every failure leaves the state untouched;
success records the drawn card for this player and puts the turn into
the discarding sub-phase (a pending unresolved `drawnCard`). -/
theorem C4_drawCard_spec (s : GameState) (pid src : String) :
    ((drawCard s pid src).2.isOk = false ↔
      (s.phase ≠ Phase.PLAYING ∨ getCurrentPlayerId s ≠ some pid ∨
       s.drawnCard.isSome = true ∨ (src = "deck" ∧ s.deck = []) ∨
       (src = "discard" ∧ s.discardPile = []) ∨
       (src ≠ "deck" ∧ src ≠ "discard"))) ∧
    ((drawCard s pid src).2.isOk = false → (drawCard s pid src).1 = s) ∧
    ((drawCard s pid src).2.isOk = true →
      ∃ c, (drawCard s pid src).1.drawnCard = some ⟨pid, c⟩ ∧
        inDiscardingSubPhase (drawCard s pid src).1) := by
  have hdd : ("deck" : String) ≠ "discard" := by decide
  unfold drawCard
  split
  next e heq =>
    have hv : ¬(s.phase = Phase.PLAYING ∧ getCurrentPlayerId s = some pid) := by
      intro hh
      rw [(validateTurn_none_iff s pid).mpr hh] at heq
      exact Option.noConfusion heq
    refine ⟨?_, fun _ => rfl, fun hok => by simp [Except.isOk, Except.toBool, Except.toBool] at hok⟩
    simp only [Except.isOk, Except.toBool]
    constructor
    · intro _
      by_cases hph : s.phase = Phase.PLAYING
      · exact Or.inr (Or.inl (fun hc => hv ⟨hph, hc⟩))
      · exact Or.inl hph
    · intro _
      trivial
  next hv =>
    obtain ⟨hph, hcur⟩ := (validateTurn_none_iff s pid).mp hv
    split
    next hd =>
      refine ⟨?_, fun _ => rfl, fun hok => by simp [Except.isOk, Except.toBool, Except.toBool] at hok⟩
      simp [Except.isOk, Except.toBool, hph, hcur, hd]
    next hd =>
      have hdf : s.drawnCard.isSome = false := by
        simpa using hd
      split
      next hsrc =>
        split
        next hdeck =>
          refine ⟨?_, fun _ => rfl, fun hok => by simp [Except.isOk, Except.toBool, Except.toBool] at hok⟩
          simp [Except.isOk, Except.toBool, hph, hcur, hdf, hsrc, hdeck, hdd]
        next c rest hdeck =>
          refine ⟨?_, ?_, ?_⟩
          · simp [Except.isOk, Except.toBool, hph, hcur, hdf, hsrc, hdeck, hdd]
          · intro hh
            simp [Except.isOk, Except.toBool] at hh
          · intro _
            exact ⟨c, rfl, by simp [inDiscardingSubPhase]⟩
      next hsrc =>
        split
        next hsrc2 =>
          split
          next heq2 =>
            have hemp : s.discardPile = [] := by
              cases hp : s.discardPile with
              | nil => rfl
              | cons a t =>
                rw [hp] at heq2
                simp [List.getLast?] at heq2
            refine ⟨?_, fun _ => rfl, fun hok => by simp [Except.isOk, Except.toBool, Except.toBool] at hok⟩
            simp [Except.isOk, Except.toBool, hph, hcur, hdf, hsrc, hsrc2, hemp]
          next c heq2 =>
            have hne : s.discardPile ≠ [] := by
              intro hh
              rw [hh] at heq2
              simp at heq2
            refine ⟨?_, ?_, ?_⟩
            · simp [Except.isOk, Except.toBool, hph, hcur, hdf, hsrc, hsrc2, hne]
            · intro hh
              simp [Except.isOk, Except.toBool] at hh
            · intro _
              exact ⟨c, rfl, by simp [inDiscardingSubPhase]⟩
        next hsrc2 =>
          refine ⟨?_, fun _ => rfl, fun hok => by simp [Except.isOk, Except.toBool, Except.toBool] at hok⟩
          simp [Except.isOk, Except.toBool, hph, hcur, hdf, hsrc, hsrc2]

/-- Witness for C4: on a concrete in-game state, drawing from an empty
discard pile fails with the state untouched. -/
theorem C4_drawCard_spec_witness :
    ((drawCard cexPlaying "A" "deck").2.isOk = true →
      ∃ c, (drawCard cexPlaying "A" "deck").1.drawnCard = some ⟨"A", c⟩ ∧
        inDiscardingSubPhase (drawCard cexPlaying "A" "deck").1) ∧
    ((drawCard cexPlaying "B" "deck").2.isOk = false →
      (drawCard cexPlaying "B" "deck").1 = cexPlaying) :=
  ⟨(C4_drawCard_spec cexPlaying "A" "deck").2.2,
   (C4_drawCard_spec cexPlaying "B" "deck").2.1⟩

/-- C5: `callKabul` succeeds exactly when the caller holds the turn in
phase PLAYING with the turn still in its DRAWING sub-phase (no card
drawn yet — the engine has no explicit sub-phase field; `drawnCard =
none` realises DRAWING); on success it sets the caller's
`hasCalledKabul`, records the caller, sets `finalTurnsRemaining` to
`playerCount - 1`, and advances the turn to the next seat without
touching that counter. -/
theorem C5_callKabul_spec (s : GameState) (pid : String) (p : Player)
    (hfp : findP s.players pid = some p) :
    ((callKabul s pid).2.isOk = true ↔
      (s.phase = Phase.PLAYING ∧ getCurrentPlayerId s = some pid ∧
       inDrawingSubPhase s)) ∧
    ((callKabul s pid).2.isOk = true →
      findP (callKabul s pid).1.players pid =
        some { p with hasCalledKabul := true } ∧
      (callKabul s pid).1.kabulCaller = some pid ∧
      (callKabul s pid).1.finalTurnsRemaining =
        (s.turnOrder.length : Int) - 1 ∧
      (callKabul s pid).1.currentTurnIndex =
        (s.currentTurnIndex + 1) % s.turnOrder.length) := by
  unfold callKabul
  split
  next e heq =>
    have hv : ¬(s.phase = Phase.PLAYING ∧ getCurrentPlayerId s = some pid) := by
      intro hh
      rw [(validateTurn_none_iff s pid).mpr hh] at heq
      exact Option.noConfusion heq
    refine ⟨?_, fun hok => by simp [Except.isOk, Except.toBool, Except.toBool] at hok⟩
    simp only [Except.isOk, Except.toBool]
    constructor
    · intro hh
      exact absurd hh (by simp)
    · intro hh
      exact absurd ⟨hh.1, hh.2.1⟩ hv
  next hv =>
    obtain ⟨hph, hcur⟩ := (validateTurn_none_iff s pid).mp hv
    split_ifs with hd
    · refine ⟨?_, fun hok => by simp [Except.isOk, Except.toBool, Except.toBool] at hok⟩
      simp only [Except.isOk, Except.toBool]
      constructor
      · intro hh
        exact absurd hh (by simp)
      · intro hh
        rw [inDrawingSubPhase] at hh
        rw [hh.2.2] at hd
        simp at hd
    · rw [hfp]
      refine ⟨?_, ?_⟩
      · simp only [Except.isOk, Except.toBool]
        constructor
        · intro _
          refine ⟨hph, hcur, ?_⟩
          rw [inDrawingSubPhase]
          cases hdc : s.drawnCard with
          | none => rfl
          | some d => rw [hdc] at hd; simp at hd
        · intro _
          trivial
      · intro _
        refine ⟨?_, rfl, rfl, rfl⟩
        exact findP_setP_self s.players pid _ p hfp

/-- Witness for C5 on the concrete two-player game: player A may call
Kabul right away, and the effects are as specified. -/
theorem C5_callKabul_spec_witness :
    ((callKabul cexPlaying "A").2.isOk = true ↔
      (cexPlaying.phase = Phase.PLAYING ∧
       getCurrentPlayerId cexPlaying = some "A" ∧
       inDrawingSubPhase cexPlaying)) ∧
    ((callKabul cexPlaying "A").2.isOk = true →
      findP (callKabul cexPlaying "A").1.players "A" =
        some { (freshPlayer ("A", "Alice")) with
                 hand := ((findP cexPlaying.players "A").getD
                   (freshPlayer ("A", "Alice"))).hand
                 hasCalledKabul := true } ∧
      (callKabul cexPlaying "A").1.kabulCaller = some "A" ∧
      (callKabul cexPlaying "A").1.finalTurnsRemaining =
        (cexPlaying.turnOrder.length : Int) - 1 ∧
      (callKabul cexPlaying "A").1.currentTurnIndex =
        (cexPlaying.currentTurnIndex + 1) % cexPlaying.turnOrder.length) := by
  have hfp : findP cexPlaying.players "A" =
      some ((findP cexPlaying.players "A").getD (freshPlayer ("A", "Alice"))) := by
    decide
  have h := C5_callKabul_spec cexPlaying "A" _ hfp
  refine ⟨h.1, fun hok => ?_⟩
  have h2 := h.2 hok
  refine ⟨?_, h2.2.1, h2.2.2.1, h2.2.2.2⟩
  rw [h2.1]
  decide

/-!  Claim C2. -/

theorem succ_mod_ne (n i : Nat) (hn : 2 ≤ n) (hi : i < n) :
    (i + 1) % n ≠ i := by
  by_cases h : i + 1 < n
  · rw [Nat.mod_eq_of_lt h]
    omega
  · have h2 : i + 1 = n := by omega
    rw [h2, Nat.mod_self]
    omega

theorem turnOrder_get_ne (l : List String) (c : String) (i j : Nat)
    (hnd : l.Nodup) (hi : i < l.length) (hj : j < l.length) (hij : i ≠ j)
    (hc : l.get? i = some c) : l.get? j ≠ some c := by
  intro hh
  rw [List.get?_eq_get hi] at hc
  rw [List.get?_eq_get hj] at hh
  have h1 : l.get ⟨i, hi⟩ = c := Option.some.inj hc
  have h2 : l.get ⟨j, hj⟩ = c := Option.some.inj hh
  have h3 : l.get ⟨i, hi⟩ = l.get ⟨j, hj⟩ := by rw [h1, h2]
  have h4 := (List.Nodup.get_inj_iff hnd).mp h3
  exact hij (congrArg Fin.val h4)

theorem scoreStep_fields (st : GameState × Option (String × Int))
    (pid : String) :
    (scoreStep st pid).1.phase = st.1.phase ∧
    (scoreStep st pid).1.finalTurnsRemaining = st.1.finalTurnsRemaining ∧
    (scoreStep st pid).1.turnOrder = st.1.turnOrder ∧
    (scoreStep st pid).1.currentTurnIndex = st.1.currentTurnIndex := by
  unfold scoreStep
  split
  next => exact ⟨rfl, rfl, rfl, rfl⟩
  next p hfp =>
    split
    next => exact ⟨rfl, rfl, rfl, rfl⟩
    next best =>
      dsimp only
      split_ifs <;> exact ⟨rfl, rfl, rfl, rfl⟩

theorem foldl_scoreStep_fields (l : List String) :
    ∀ st : GameState × Option (String × Int),
    (l.foldl scoreStep st).1.phase = st.1.phase ∧
    (l.foldl scoreStep st).1.finalTurnsRemaining =
      st.1.finalTurnsRemaining ∧
    (l.foldl scoreStep st).1.turnOrder = st.1.turnOrder ∧
    (l.foldl scoreStep st).1.currentTurnIndex = st.1.currentTurnIndex := by
  induction l with
  | nil => intro st; exact ⟨rfl, rfl, rfl, rfl⟩
  | cons a t ih =>
    intro st
    have h1 := scoreStep_fields st a
    have h2 := ih (scoreStep st a)
    rw [List.foldl_cons]
    exact ⟨h2.1.trans h1.1, h2.2.1.trans h1.2.1, h2.2.2.1.trans h1.2.2.1,
      h2.2.2.2.trans h1.2.2.2⟩

/-- `_endGame` fixes the phase and touches nothing of the turn
machinery. -/
theorem endGame_fields (s : GameState) :
    (endGame s).phase = Phase.ENDED ∧
    (endGame s).finalTurnsRemaining = s.finalTurnsRemaining ∧
    (endGame s).turnOrder = s.turnOrder ∧
    (endGame s).currentTurnIndex = s.currentTurnIndex := by
  have h := foldl_scoreStep_fields s.turnOrder
    ({ s with phase := Phase.ENDED }, none)
  exact ⟨h.1, h.2.1, h.2.2.1, h.2.2.2⟩

/-- C2: once Kabul has been called (`kabulCaller = some c`), every run
of the turn-advance routine decrements `finalTurnsRemaining` by exactly
one; the phase flips to ENDED exactly on the advance that brings the
counter to 0 (that is, when it was at most 1 before the advance); the
advance never hands the turn to the caller; and the `callKabul` call
itself already moves the turn off the caller without touching the fresh
counter. -/
theorem C2_kabul_sequencing (s : GameState) (c : String)
    (hk : s.kabulCaller = some c) (hph : s.phase = Phase.PLAYING)
    (hnd : s.turnOrder.Nodup) (hn : 2 ≤ s.turnOrder.length) :
    ((nextTurn s).finalTurnsRemaining = s.finalTurnsRemaining - 1 ∧
     ((nextTurn s).phase = Phase.ENDED ↔ s.finalTurnsRemaining ≤ 1) ∧
     getCurrentPlayerId (nextTurn s) ≠ some c) ∧
    (∀ pid, (callKabul s pid).2.isOk = true →
      getCurrentPlayerId (callKabul s pid).1 ≠ some pid ∧
      (callKabul s pid).1.finalTurnsRemaining =
        (s.turnOrder.length : Int) - 1) := by
  have hn0 : 0 < s.turnOrder.length := by omega
  have hi1 : (s.currentTurnIndex + 1) % s.turnOrder.length <
      s.turnOrder.length := Nat.mod_lt _ hn0
  constructor
  · unfold nextTurn
    rw [hk]
    simp only [Option.isSome_some, and_true, if_true]
    set i1 := (s.currentTurnIndex + 1) % s.turnOrder.length with hi1def
    split_ifs with hskip hend hend
    case pos =>
      refine ⟨(endGame_fields _).2.1, ?_, ?_⟩
      · rw [(endGame_fields _).1]
        simp only [] at hend
        constructor
        · intro _
          omega
        · intro _
          rfl
      · rw [getCurrentPlayerId, (endGame_fields _).2.2.1,
          (endGame_fields _).2.2.2]
        show s.turnOrder.get? ((i1 + 1) % s.turnOrder.length) ≠ some c
        have hi2 : (i1 + 1) % s.turnOrder.length < s.turnOrder.length :=
          Nat.mod_lt _ hn0
        exact turnOrder_get_ne s.turnOrder c i1 ((i1 + 1) % s.turnOrder.length)
          hnd hi1 hi2 (fun hh => succ_mod_ne s.turnOrder.length i1 hn hi1 hh.symm)
          hskip
    case neg =>
      refine ⟨rfl, ?_, ?_⟩
      · constructor
        · intro hh
          rw [hph] at hh
          exact absurd hh (by simp)
        · intro hh
          simp only [] at hend
          omega
      · show s.turnOrder.get? ((i1 + 1) % s.turnOrder.length) ≠ some c
        have hi2 : (i1 + 1) % s.turnOrder.length < s.turnOrder.length :=
          Nat.mod_lt _ hn0
        exact turnOrder_get_ne s.turnOrder c i1 ((i1 + 1) % s.turnOrder.length)
          hnd hi1 hi2 (fun hh => succ_mod_ne s.turnOrder.length i1 hn hi1 hh.symm)
          hskip
    case pos =>
      refine ⟨(endGame_fields _).2.1, ?_, ?_⟩
      · rw [(endGame_fields _).1]
        simp only [] at hend
        constructor
        · intro _
          omega
        · intro _
          rfl
      · rw [getCurrentPlayerId, (endGame_fields _).2.2.1,
          (endGame_fields _).2.2.2]
        show s.turnOrder.get? i1 ≠ some c
        exact hskip
    case neg =>
      refine ⟨rfl, ?_, ?_⟩
      · constructor
        · intro hh
          rw [hph] at hh
          exact absurd hh (by simp)
        · intro hh
          simp only [] at hend
          omega
      · show s.turnOrder.get? i1 ≠ some c
        exact hskip
  · intro pid hok
    unfold callKabul at hok ⊢
    split at hok
    next e heq => simp [Except.isOk, Except.toBool] at hok
    next hv =>
      obtain ⟨hph2, hcur⟩ := (validateTurn_none_iff s pid).mp hv
      split_ifs at hok with hdr
      · simp [Except.isOk, Except.toBool] at hok
      · rw [if_neg hdr]
        split at hok
        next => simp [Except.isOk, Except.toBool] at hok
        next p hfp =>
          dsimp only
          refine ⟨?_, rfl⟩
          show s.turnOrder.get?
            ((s.currentTurnIndex + 1) % s.turnOrder.length) ≠ some pid
          have hidx : s.currentTurnIndex < s.turnOrder.length := by
            by_contra hc2
            rw [getCurrentPlayerId, List.get?_eq_none.mpr (by omega)] at hcur
            exact Option.noConfusion hcur
          exact turnOrder_get_ne s.turnOrder pid s.currentTurnIndex
            ((s.currentTurnIndex + 1) % s.turnOrder.length) hnd hidx
            (Nat.mod_lt _ hn0)
            (fun hh => succ_mod_ne s.turnOrder.length s.currentTurnIndex hn
              hidx hh.symm)
            hcur

/-!  Slap result helpers (claims C3, C8, C10). -/

/-- The reindexed hand a successful slap leaves behind. -/
def slappedHand (hand : List HandCard) (i : Nat) : List HandCard :=
  (hand.eraseIdx i).mapIdx (fun k c => { c with position := k })

theorem slap_match_result (s : GameState) (pid : String) (i : Int)
    (p : Player) (hph : s.phase = Phase.PLAYING)
    (hfp : findP s.players pid = some p)
    (hb : ¬(i < 0 ∨ (p.hand.length : Int) ≤ i))
    (card : HandCard) (hget : p.hand.get? i.toNat = some card)
    (hm : s.topDiscard.map Card.rank = some card.rank) :
    slap s pid i =
      ({ s with
          players := setP s.players pid
            { p with hand := slappedHand p.hand i.toNat }
          discardPile := s.discardPile ++ [card.toCard]
          topDiscard := some card.toCard },
       .ok true) := by
  unfold slap
  rw [if_neg (fun hh => hh hph), hfp]
  show (if i < 0 ∨ (p.hand.length : Int) ≤ i then _ else _) = _
  rw [if_neg hb, hget]
  show (if s.topDiscard.map Card.rank = some card.rank then _ else _) = _
  rw [if_pos hm]
  rfl

theorem slap_miss_result (s : GameState) (pid : String) (i : Int)
    (p : Player) (hph : s.phase = Phase.PLAYING)
    (hfp : findP s.players pid = some p)
    (hb : ¬(i < 0 ∨ (p.hand.length : Int) ≤ i))
    (card : HandCard) (hget : p.hand.get? i.toNat = some card)
    (hm : ¬s.topDiscard.map Card.rank = some card.rank) :
    (s.deck = [] → slap s pid i = (s, .ok false)) ∧
    (∀ c0 rest, s.deck = c0 :: rest →
      slap s pid i =
        ({ s with
            deck := rest
            players := setP s.players pid
              { p with hand := p.hand ++ [c0.withPos p.hand.length] } },
         .ok false)) := by
  constructor
  · intro hdeck
    unfold slap
    rw [if_neg (fun hh => hh hph), hfp]
    show (if i < 0 ∨ (p.hand.length : Int) ≤ i then _ else _) = _
    rw [if_neg hb, hget]
    show (if s.topDiscard.map Card.rank = some card.rank then _ else _) = _
    rw [if_neg hm, hdeck]
  · intro c0 rest hdeck
    unfold slap
    rw [if_neg (fun hh => hh hph), hfp]
    show (if i < 0 ∨ (p.hand.length : Int) ≤ i then _ else _) = _
    rw [if_neg hb, hget]
    show (if s.topDiscard.map Card.rank = some card.rank then _ else _) = _
    rw [if_neg hm, hdeck]

theorem slap_errors_iff (s : GameState) (pid : String) (i : Int)
    (p : Player) (hfp : findP s.players pid = some p) :
    (slap s pid i).2.isOk = false ↔
      (s.phase ≠ Phase.PLAYING ∨ i < 0 ∨ (p.hand.length : Int) ≤ i) := by
  by_cases hph : s.phase = Phase.PLAYING
  · by_cases hb : i < 0 ∨ (p.hand.length : Int) ≤ i
    · constructor
      · intro _
        exact Or.inr hb
      · intro _
        unfold slap
        rw [if_neg (fun hh => hh hph), hfp]
        dsimp only
        rw [if_pos hb]
        rfl
    · have hlt : i.toNat < p.hand.length := by omega
      obtain ⟨card, hget⟩ : ∃ card, p.hand.get? i.toNat = some card :=
        ⟨p.hand.get ⟨i.toNat, hlt⟩, List.get?_eq_get hlt⟩
      constructor
      · intro hh
        exfalso
        by_cases hm : s.topDiscard.map Card.rank = some card.rank
        · rw [slap_match_result s pid i p hph hfp hb card hget hm] at hh
          simp [Except.isOk, Except.toBool] at hh
        · have hmiss := slap_miss_result s pid i p hph hfp hb card hget hm
          cases hdeck : s.deck with
          | nil =>
            rw [hmiss.1 hdeck] at hh
            simp [Except.isOk, Except.toBool] at hh
          | cons c0 rest =>
            rw [hmiss.2 c0 rest hdeck] at hh
            simp [Except.isOk, Except.toBool] at hh
      · intro hh
        rcases hh with hh | hh | hh
        · exact absurd hph hh
        · exact absurd (Or.inl hh) hb
        · exact absurd (Or.inr hh) hb
  · constructor
    · intro _
      exact Or.inl hph
    · intro _
      unfold slap
      rw [if_pos (fun hh => hph hh)]
      rfl

/-- C3: in phase PLAYING with an in-range hand index and a discard top:
on a rank match the slapped card leaves the hand, the remaining hand is
re-indexed contiguously (`position k` at slot `k`, one card fewer), and
the card becomes the new discard top; on a rank mismatch exactly one
penalty card moves from the deck head to the slapper's hand, and with an
empty deck nothing changes at all. -/
theorem C3_slap_spec (s : GameState) (pid : String) (i : Int) (p : Player)
    (top : Card) (hph : s.phase = Phase.PLAYING)
    (hfp : findP s.players pid = some p)
    (hb : ¬(i < 0 ∨ (p.hand.length : Int) ≤ i))
    (card : HandCard) (hget : p.hand.get? i.toNat = some card)
    (htop : s.topDiscard = some top) :
    (card.rank = top.rank →
      findP (slap s pid i).1.players pid =
        some { p with hand := slappedHand p.hand i.toNat } ∧
      (slappedHand p.hand i.toNat).length + 1 = p.hand.length ∧
      (∀ k (hk : k < (slappedHand p.hand i.toNat).length),
        ((slappedHand p.hand i.toNat).get ⟨k, hk⟩).position = k) ∧
      (slap s pid i).1.topDiscard = some card.toCard ∧
      (slap s pid i).1.discardPile = s.discardPile ++ [card.toCard] ∧
      (slap s pid i).2 = .ok true) ∧
    (card.rank ≠ top.rank → s.deck = [] →
      (slap s pid i).1 = s ∧ (slap s pid i).2 = .ok false) ∧
    (card.rank ≠ top.rank → ∀ c0 rest, s.deck = c0 :: rest →
      findP (slap s pid i).1.players pid =
        some { p with hand := p.hand ++ [c0.withPos p.hand.length] } ∧
      (slap s pid i).1.deck = rest ∧
      (slap s pid i).2 = .ok false) := by
  have hlt : i.toNat < p.hand.length := by omega
  refine ⟨?_, ?_, ?_⟩
  · intro hrank
    have hm : s.topDiscard.map Card.rank = some card.rank := by
      rw [htop, hrank]
      rfl
    rw [slap_match_result s pid i p hph hfp hb card hget hm]
    refine ⟨?_, ?_, ?_, rfl, rfl, rfl⟩
    · exact findP_setP_self s.players pid _ p hfp
    · unfold slappedHand
      rw [List.length_mapIdx, List.length_eraseIdx_of_lt hlt]
      omega
    · intro k hk
      unfold slappedHand at hk ⊢
      simp [List.getElem_mapIdx]
  · intro hrank hdeck
    have hm : ¬s.topDiscard.map Card.rank = some card.rank := by
      rw [htop]
      intro hh
      exact hrank (Option.some.inj hh).symm
    rw [(slap_miss_result s pid i p hph hfp hb card hget hm).1 hdeck]
    exact ⟨rfl, rfl⟩
  · intro hrank c0 rest hdeck
    have hm : ¬s.topDiscard.map Card.rank = some card.rank := by
      rw [htop]
      intro hh
      exact hrank (Option.some.inj hh).symm
    rw [(slap_miss_result s pid i p hph hfp hb card hget hm).2 c0 rest hdeck]
    refine ⟨?_, rfl, rfl⟩
    exact findP_setP_self s.players pid _ p hfp

/-- C10: `slap` throws exactly when the phase is not PLAYING or the hand
index is out of range; it checks nothing else — in particular not turn
ownership, a pending drawn card, a pending ability, or
`hasCalledKabul` — so even the Kabul caller's locked hand loses a card
on a matching slap and gains the deck's top card on a mismatched one. -/
theorem C10_slap_only_checks (s : GameState) (pid : String) (i : Int)
    (p : Player) (hfp : findP s.players pid = some p) :
    ((slap s pid i).2.isOk = false ↔
      (s.phase ≠ Phase.PLAYING ∨ i < 0 ∨ (p.hand.length : Int) ≤ i)) ∧
    (p.hasCalledKabul = true → s.phase = Phase.PLAYING →
      ¬(i < 0 ∨ (p.hand.length : Int) ≤ i) →
      ∀ card, p.hand.get? i.toNat = some card →
      (s.topDiscard.map Card.rank = some card.rank →
        ∃ q, findP (slap s pid i).1.players pid = some q ∧
          q.hand.length + 1 = p.hand.length) ∧
      (¬s.topDiscard.map Card.rank = some card.rank →
        ∀ c0 rest, s.deck = c0 :: rest →
        ∃ q, findP (slap s pid i).1.players pid = some q ∧
          q.hand.length = p.hand.length + 1)) := by
  refine ⟨slap_errors_iff s pid i p hfp, ?_⟩
  intro hkab hph hb card hget
  have hlt : i.toNat < p.hand.length := by omega
  constructor
  · intro hm
    rw [slap_match_result s pid i p hph hfp hb card hget hm]
    refine ⟨_, findP_setP_self s.players pid _ p hfp, ?_⟩
    show (slappedHand p.hand i.toNat).length + 1 = p.hand.length
    unfold slappedHand
    rw [List.length_mapIdx, List.length_eraseIdx_of_lt hlt]
    omega
  · intro hm c0 rest hdeck
    rw [(slap_miss_result s pid i p hph hfp hb card hget hm).2 c0 rest hdeck]
    refine ⟨_, findP_setP_self s.players pid _ p hfp, ?_⟩
    simp

/-- C8: the engine's slap is a single atomic compare-and-apply against
the current discard top (its entire read-compare-commit runs as one
uninterruptible call), so two simultaneous attempts serialize.  This
theorem describes both serialization orders at once: the first attempt
(A, matching the original top T) commits and its card becomes the new
top; the second attempt (B) is validated against the post-commit top —
never against the stale T — and on failing that comparison it is a
mismatch drawing one penalty card from the deck (none when the deck is
empty), while on matching the new top it commits as a fresh slap. -/
theorem C8_slap_race (s : GameState) (pA pB : String) (iA iB : Int)
    (plA : Player) (T : Card)
    (hph : s.phase = Phase.PLAYING) (htop : s.topDiscard = some T)
    (hfA : findP s.players pA = some plA)
    (hbA : ¬(iA < 0 ∨ (plA.hand.length : Int) ≤ iA))
    (cA : HandCard) (hgA : plA.hand.get? iA.toNat = some cA)
    (hmA : cA.rank = T.rank) :
    ((slap s pA iA).2 = .ok true ∧
     (slap s pA iA).1.topDiscard = some cA.toCard ∧
     (slap s pA iA).1.phase = Phase.PLAYING) ∧
    (∀ plB cB, findP (slap s pA iA).1.players pB = some plB →
      ¬(iB < 0 ∨ (plB.hand.length : Int) ≤ iB) →
      plB.hand.get? iB.toNat = some cB →
      (cB.rank ≠ cA.rank →
        (slap (slap s pA iA).1 pB iB).2 = .ok false ∧
        (slap (slap s pA iA).1 pB iB).1.topDiscard = some cA.toCard ∧
        ((slap s pA iA).1.deck = [] →
          (slap (slap s pA iA).1 pB iB).1 = (slap s pA iA).1) ∧
        (∀ c0 rest, (slap s pA iA).1.deck = c0 :: rest →
          findP (slap (slap s pA iA).1 pB iB).1.players pB =
            some { plB with hand := plB.hand ++ [c0.withPos plB.hand.length] })) ∧
      (cB.rank = cA.rank →
        (slap (slap s pA iA).1 pB iB).2 = .ok true ∧
        (slap (slap s pA iA).1 pB iB).1.topDiscard = some cB.toCard)) := by
  have hmA2 : s.topDiscard.map Card.rank = some cA.rank := by
    rw [htop, hmA]
    rfl
  have hres := slap_match_result s pA iA plA hph hfA hbA cA hgA hmA2
  have htop2 : (slap s pA iA).1.topDiscard = some cA.toCard := by
    rw [hres]
  have hph2 : (slap s pA iA).1.phase = Phase.PLAYING := by
    rw [hres]
    exact hph
  refine ⟨⟨by rw [hres], htop2, hph2⟩, ?_⟩
  intro plB cB hfB hbB hgB
  constructor
  · intro hne
    have hm2 : ¬(slap s pA iA).1.topDiscard.map Card.rank = some cB.rank := by
      rw [htop2]
      intro hh
      exact hne (Option.some.inj hh).symm
    have hmiss := slap_miss_result (slap s pA iA).1 pB iB plB hph2 hfB hbB
      cB hgB hm2
    refine ⟨?_, ?_, ?_, ?_⟩
    · cases hdeck : (slap s pA iA).1.deck with
      | nil => rw [hmiss.1 hdeck]
      | cons c0 rest => rw [hmiss.2 c0 rest hdeck]
    · cases hdeck : (slap s pA iA).1.deck with
      | nil =>
        rw [hmiss.1 hdeck]
        exact htop2
      | cons c0 rest =>
        rw [hmiss.2 c0 rest hdeck]
        exact htop2
    · intro hdeck
      rw [(hmiss.1 hdeck)]
    · intro c0 rest hdeck
      rw [hmiss.2 c0 rest hdeck]
      exact findP_setP_self _ pB _ plB hfB
  · intro heq
    have hm2 : (slap s pA iA).1.topDiscard.map Card.rank = some cB.rank := by
      rw [htop2, heq]
      rfl
    have hm := slap_match_result (slap s pA iA).1 pB iB plB hph2 hfB hbB
      cB hgB hm2
    rw [hm]
    exact ⟨rfl, rfl⟩

/-!  Concrete states for the slap witnesses. -/

/-- A rank-`r` spade, as `_createCard` builds it. -/
def wCard (r : String) : Card := createCard r (some "♠")

def wPlayerA : Player :=
  { id := "A", name := "Alice",
    hand := [(wCard "9").withPos 0, (wCard "5").withPos 1],
    hasCalledKabul := false, isConnected := true, finalScore := none }

def wPlayerB : Player :=
  { id := "B", name := "Bob",
    hand := [(wCard "9").withPos 0, (wCard "2").withPos 1],
    hasCalledKabul := true, isConnected := true, finalScore := none }

def wState : GameState :=
  { gameId := "w", phase := Phase.PLAYING, memorizeEndsAt := none,
    players := [("A", wPlayerA), ("B", wPlayerB)],
    turnOrder := ["A", "B"], currentTurnIndex := 0,
    deck := [wCard "3", wCard "4"],
    discardPile := [createCard "9" (some "♥")],
    topDiscard := some (createCard "9" (some "♥")),
    drawnCard := none, pendingAction := none, kabulCaller := none,
    finalTurnsRemaining := 0, winner := none }

/-- Witness for C3: player A's matching slap on the concrete table. -/
theorem C3_slap_spec_witness :
    findP (slap wState "A" 0).1.players "A" =
      some { wPlayerA with hand := slappedHand wPlayerA.hand 0 } ∧
    (slap wState "A" 0).1.topDiscard =
      some ((wCard "9").withPos 0).toCard ∧
    (slap wState "A" 0).2 = .ok true := by
  have h := C3_slap_spec wState "A" 0 wPlayerA (createCard "9" (some "♥"))
    (by decide) (by decide) (by decide) ((wCard "9").withPos 0)
    (by decide) (by decide)
  have h2 := h.1 (by decide)
  exact ⟨h2.1, h2.2.2.2.1, h2.2.2.2.2.2⟩

/-- Witness for C10: the Kabul caller B's locked hand still gains a
penalty card from a mismatched slap. -/
theorem C10_slap_only_checks_witness :
    ((slap wState "B" 1).2.isOk = false ↔
      (wState.phase ≠ Phase.PLAYING ∨ (1 : Int) < 0 ∨
       (wPlayerB.hand.length : Int) ≤ 1)) ∧
    (∃ q, findP (slap wState "B" 1).1.players "B" = some q ∧
      q.hand.length = wPlayerB.hand.length + 1) := by
  have h := C10_slap_only_checks wState "B" 1 wPlayerB (by decide)
  refine ⟨h.1, ?_⟩
  have h2 := h.2 (by decide) (by decide) (by decide)
    ((wCard "2").withPos 1) (by decide)
  exact h2.2 (by decide) (wCard "3") [wCard "4"] (by decide)

/-- Witness for C8: A and B slap the same 9 top; A commits against it
and B, re-evaluated against A's committed 9, commits as a fresh slap. -/
theorem C8_slap_race_witness :
    (slap wState "A" 0).2 = .ok true ∧
    (slap (slap wState "A" 0).1 "B" 0).2 = .ok true ∧
    (slap (slap wState "A" 0).1 "B" 0).1.topDiscard =
      some ((wCard "9").withPos 0).toCard := by
  have h := C8_slap_race wState "A" "B" 0 0 wPlayerA
    (createCard "9" (some "♥")) (by decide) (by decide) (by decide)
    (by decide) ((wCard "9").withPos 0) (by decide) (by decide)
  have h2 := (h.2 wPlayerB ((wCard "9").withPos 0) (by decide) (by decide)
    (by decide)).2 (by decide)
  exact ⟨h.1.1, h2.1, h2.2⟩

/-- Witness for C2: the Kabul countdown on a concrete post-call state. -/
theorem C2_kabul_sequencing_witness :
    (nextTurn (callKabul cexPlaying "A").1).finalTurnsRemaining =
      (callKabul cexPlaying "A").1.finalTurnsRemaining - 1 ∧
    ((nextTurn (callKabul cexPlaying "A").1).phase = Phase.ENDED ↔
      (callKabul cexPlaying "A").1.finalTurnsRemaining ≤ 1) ∧
    getCurrentPlayerId (nextTurn (callKabul cexPlaying "A").1) ≠ some "A" :=
  (C2_kabul_sequencing (callKabul cexPlaying "A").1 "A" (by decide)
    (by decide) (by decide) (by decide)).1

/-!  Claim C6. -/

/-- C6: whenever a pending action holds a reveal (a peek result's
`card`, or a `revealedCard` payload), every player other than the acting
player gets a masked client state that is bitwise independent of the
revealed identity: replacing the pending action's `card` and
`revealedCard` by anything at all leaves their view unchanged, and their
view carries no `peekedCard` and no `pendingAction` at all. -/
theorem C6_reveal_isolation (s : GameState) (pa : PendingAction)
    (q : String) (hpa : s.pendingAction = some pa)
    (hq : q ≠ pa.playerId) :
    (∀ c r, getClientState
        { s with pendingAction := some { pa with card := c, revealedCard := r } } q =
      getClientState s q) ∧
    (∀ view, getClientState s q = some view →
      view.peekedCard = none ∧ view.pendingAction = none) := by
  have h1 : getPeekedCard s q = none := by
    unfold getPeekedCard
    rw [hpa]
    dsimp only
    rw [if_neg (fun hh => hq hh.2.symm)]
  have h2 : getPendingActionView s q = none := by
    unfold getPendingActionView
    rw [hpa]
    dsimp only
    rw [if_neg (fun hh => hq hh.symm)]
  constructor
  · intro c r
    have h1b : getPeekedCard
        { s with pendingAction := some { pa with card := c, revealedCard := r } } q = none := by
      unfold getPeekedCard
      dsimp only
      rw [if_neg (fun hh => hq hh.2.symm)]
    have h2b : getPendingActionView
        { s with pendingAction := some { pa with card := c, revealedCard := r } } q = none := by
      unfold getPendingActionView
      dsimp only
      rw [if_neg (fun hh => hq hh.symm)]
    unfold getClientState
    dsimp only
    simp only [h1, h2, h1b, h2b]
    rfl
  · intro view hview
    unfold getClientState at hview
    cases hf : findP s.players q with
    | none =>
      rw [hf] at hview
      exact Option.noConfusion hview
    | some pl =>
      rw [hf] at hview
      have hv2 := Option.some.inj hview
      rw [← hv2]
      exact ⟨h1, h2⟩

/-- A pending peek result: A has peeked B's first card. -/
def wPA : PendingAction :=
  { type := AState.PEEK_RESULT, playerId := "A", targetId := some "B",
    handIndex := some 0, card := some ((wCard "9").withPos 0),
    revealedCard := none, expiresAt := 100 }

def wPeekState : GameState := { wState with pendingAction := some wPA }

/-- Witness for C6: on the concrete peeked state, wiping or replacing
the reveal leaves B's masked view untouched. -/
theorem C6_reveal_isolation_witness :
    getClientState { wPeekState with pendingAction := some { wPA with card := none, revealedCard := none } } "B" = getClientState wPeekState "B" :=
  (C6_reveal_isolation wPeekState wPA "B" rfl (by decide)).1 none none

/-!  Claim C7: the Firebase four-step SEE_AND_SWAP machine. -/

namespace FB

/-- List form of `setPl`'s map update. -/
def setL (l : List (String × FBPlayer)) (pid : String) (p : FBPlayer) :
    List (String × FBPlayer) :=
  l.map (fun q => if q.1 = pid then (pid, p) else q)

theorem setPl_players (r : FBRoom) (pid : String) (p : FBPlayer) :
    (setPl r pid p).players = setL r.players pid p := rfl

/-- The hand stored at a player node (`none` for an unknown id). -/
def handOf (r : FBRoom) (q : String) : Option (List Card) :=
  (findPl r.players q).map FBPlayer.hand

/-- A player's private node (`none` when it was never created). -/
def privOf (r : FBRoom) (q : String) : Option FBPrivate :=
  (r.privates.find? (fun e => e.1 = q)).map (fun e => e.2)

theorem findPl_cons (k : String) (v : FBPlayer)
    (t : List (String × FBPlayer)) (pid : String) :
    findPl ((k, v) :: t) pid = if k = pid then some v else findPl t pid := by
  by_cases h : k = pid <;> simp [findPl, List.find?_cons, h]

theorem setL_cons (k : String) (v : FBPlayer)
    (t : List (String × FBPlayer)) (pid : String) (p : FBPlayer) :
    setL ((k, v) :: t) pid p =
      (if k = pid then (pid, p) else (k, v)) :: setL t pid p := by
  by_cases h : k = pid <;> simp [setL, h]

theorem findPl_setL_ne (l : List (String × FBPlayer)) (pid pid2 : String)
    (p : FBPlayer) (h : pid2 ≠ pid) :
    findPl (setL l pid p) pid2 = findPl l pid2 := by
  induction l with
  | nil => rfl
  | cons e t ih =>
    obtain ⟨k, v⟩ := e
    rw [setL_cons]
    by_cases hk : k = pid
    · rw [if_pos hk, findPl_cons, findPl_cons, if_neg (fun hh => h hh.symm),
        if_neg (fun hh => h (hk ▸ hh).symm)]
      exact ih
    · rw [if_neg hk, findPl_cons, findPl_cons]
      by_cases hk2 : k = pid2
      · simp [hk2]
      · simp only [if_neg hk2]
        exact ih

theorem findPl_setL_self (l : List (String × FBPlayer)) (pid : String)
    (p w : FBPlayer) (hfind : findPl l pid = some w) :
    findPl (setL l pid p) pid = some p := by
  induction l with
  | nil => simp [findPl] at hfind
  | cons e t ih =>
    obtain ⟨k, v⟩ := e
    rw [setL_cons]
    by_cases hk : k = pid
    · rw [if_pos hk, findPl_cons, if_pos rfl]
    · rw [if_neg hk, findPl_cons, if_neg hk]
      rw [findPl_cons, if_neg hk] at hfind
      exact ih hfind

theorem players_setPriv (r : FBRoom) (pid : String) (v : FBPrivate) :
    (setPriv r pid v).players = r.players := by
  unfold setPriv
  split <;> rfl

/-- A player node with its final score recorded, as `_endGame` writes it. -/
def scorePl (p : FBPlayer) : FBPlayer :=
  { p with finalScore := some (p.hand.foldl (fun a c => a + c.value) 0) }

theorem scoreStep_fst (acc : List (String × FBPlayer) × Option (String × Int))
    (e : String × FBPlayer) :
    (scoreStep acc e).1 = acc.1 ++ [(e.1, scorePl e.2)] := by
  obtain ⟨l, b⟩ := acc
  cases b with
  | none => rfl
  | some best =>
    unfold scoreStep
    dsimp only
    split <;> rfl

theorem foldl_scoreStep_fb (ps : List (String × FBPlayer)) :
    ∀ acc : List (String × FBPlayer) × Option (String × Int),
    (ps.foldl scoreStep acc).1 =
      acc.1 ++ ps.map (fun e => (e.1, scorePl e.2)) := by
  induction ps with
  | nil => intro acc; simp
  | cons e t ih =>
    intro acc
    rw [List.foldl_cons, ih, scoreStep_fst, List.map_cons, List.append_assoc]
    rfl

theorem endGame_players (r : FBRoom) :
    (endGame r).players = r.players.map (fun e => (e.1, scorePl e.2)) := by
  unfold endGame
  dsimp only
  rw [foldl_scoreStep_fb]
  rfl

theorem findPl_map_g (g : FBPlayer → FBPlayer)
    (l : List (String × FBPlayer)) (q : String) :
    findPl (l.map (fun e => (e.1, g e.2))) q = (findPl l q).map g := by
  induction l with
  | nil => rfl
  | cons e t ih =>
    obtain ⟨k, v⟩ := e
    rw [List.map_cons]
    rw [findPl_cons, findPl_cons]
    by_cases h : k = q
    · simp [h]
    · simp only [if_neg h]
      exact ih

theorem handOf_endGame (r : FBRoom) (q : String) :
    handOf (endGame r) q = handOf r q := by
  unfold handOf
  rw [endGame_players, findPl_map_g]
  cases findPl r.players q <;> rfl

theorem handOf_advanceTurn (r : FBRoom) (cur q : String) :
    handOf (advanceTurn r cur) q = handOf r q := by
  unfold advanceTurn
  dsimp only
  split
  · rfl
  · split
    · split
      · exact handOf_endGame r q
      · rfl
    · rfl

end FB

namespace FB

theorem findPriv_set_ne (l : List (String × FBPrivate)) (pid q : String)
    (v : FBPrivate) (h : q ≠ pid) :
    (l.map (fun e => if e.1 = pid then (pid, v) else e)).find?
        (fun e => e.1 = q) = l.find? (fun e => e.1 = q) := by
  induction l with
  | nil => rfl
  | cons e t ih =>
    obtain ⟨k, w⟩ := e
    rw [List.map_cons]
    dsimp only
    by_cases hk : k = pid
    · subst hk
      have hkq : ¬(k = q) := fun hh => h hh.symm
      simp [List.find?_cons, hkq, ih]
    · rw [if_neg hk]
      by_cases hq : k = q
      · simp [List.find?_cons, hq]
      · simp [List.find?_cons, hq, ih]

theorem findPriv_append_ne (l : List (String × FBPrivate)) (pid q : String)
    (v : FBPrivate) (h : q ≠ pid) :
    (l ++ [(pid, v)]).find? (fun e => e.1 = q) =
      l.find? (fun e => e.1 = q) := by
  induction l with
  | nil =>
    have hpq : ¬(pid = q) := fun hh => h hh.symm
    simp [List.find?_cons, hpq]
  | cons e t ih =>
    obtain ⟨k, w⟩ := e
    by_cases hq : k = q
    · simp [List.find?_cons, hq]
    · simp [List.find?_cons, hq, ih]

theorem privOf_setPriv_ne (r : FBRoom) (pid : String) (v : FBPrivate)
    (q : String) (h : q ≠ pid) :
    privOf (setPriv r pid v) q = privOf r q := by
  unfold privOf setPriv
  split
  · dsimp only
    rw [findPriv_set_ne r.privates pid q v h]
  · dsimp only
    rw [findPriv_append_ne r.privates pid q v h]

theorem players_seeSwapReveal (r : FBRoom) (pid : String) (j : Nat) :
    (seeSwapReveal r pid j).1.players = r.players := by
  unfold seeSwapReveal
  split
  · rfl
  · split
    · rfl
    · split
      · rfl
      · split
        · rfl
        · dsimp only
          split
          · exact players_setPriv r pid _
          · split
            · exact players_setPriv r pid _
            · exact players_setPriv r pid _

theorem privOf_seeSwapReveal_ne (r : FBRoom) (pid : String) (j : Nat)
    (q : String) (h : q ≠ pid) :
    privOf (seeSwapReveal r pid j).1 q = privOf r q := by
  unfold seeSwapReveal
  split
  · rfl
  · split
    · rfl
    · split
      · rfl
      · split
        · rfl
        · dsimp only
          split
          · exact privOf_setPriv_ne r pid _ q h
          · split
            · exact privOf_setPriv_ne r pid _ q h
            · exact privOf_setPriv_ne r pid _ q h

end FB

open FB in
/-- C7 (amended, Firebase service): with a SEE_AND_SWAP ability fully
recorded in `abilityState` (own index, target player, target index all
chosen), the four-step machine behaves as specified: the two selection
steps and the reveal step write no hand at all; the reveal step at the
recorded target index returns exactly the two involved cards to the
acting caller and writes no private node but the actor's own; skipping
the ability writes no hand; and the confirm step alone succeeds and
executes exactly the exchange at the recorded indices. -/
theorem C7_see_and_swap (r : FBRoom) (pid tid : String) (a : FBAbility)
    (oi ti : Nat) (player target : FBPlayer) (oc tc : Card)
    (hne : tid ≠ pid)
    (ha : r.abilityState = some a)
    (hap : a.activePlayer = some pid)
    (htp : a.targetPlayer = some tid)
    (hoi : a.ownCardIndex = some oi)
    (hti : a.targetCardIndex = some ti)
    (hfp : findPl r.players pid = some player)
    (hft : findPl r.players tid = some target)
    (hoc : player.hand.get? oi = some oc)
    (htc : target.hand.get? ti = some tc) :
    (∀ q i, handOf (seeSwapSelectOwn r pid i) q = handOf r q) ∧
    (∀ q t, handOf (seeSwapSelectTarget r pid t) q = handOf r q) ∧
    (∀ q j, handOf (seeSwapReveal r pid j).1 q = handOf r q) ∧
    ((seeSwapReveal r pid ti).2 = Except.ok (oc, tc) ∧
      ∀ q, q ≠ pid → privOf (seeSwapReveal r pid ti).1 q = privOf r q) ∧
    (∀ q, handOf (skipAbility r pid) q = handOf r q) ∧
    (∀ x y, (confirmSwap r pid x y).2 = Except.ok () ∧
      handOf (confirmSwap r pid x y).1 pid = some (player.hand.set oi tc) ∧
      handOf (confirmSwap r pid x y).1 tid = some (target.hand.set ti oc)) := by
  have hpt : pid ≠ tid := fun hh => hne hh.symm
  refine ⟨fun q i => rfl, fun q t => rfl, ?_, ⟨?_, ?_⟩, ?_, ?_⟩
  · intro q j
    unfold handOf
    rw [players_seeSwapReveal]
  · unfold seeSwapReveal
    rw [ha]
    dsimp only
    rw [htp]
    dsimp only
    rw [hft]
    dsimp only
    rw [htc]
    dsimp only
    rw [players_setPriv, hfp]
    dsimp only
    rw [hoi]
    dsimp only [Option.bind]
    rw [hoc]
  · intro q hq
    exact privOf_seeSwapReveal_ne r pid ti q hq
  · intro q
    unfold skipAbility
    dsimp only
    rw [handOf_advanceTurn]
    unfold handOf
    rw [players_setPriv]
  · intro x y
    unfold confirmSwap
    rw [ha]
    dsimp only
    rw [hap, if_neg (fun hh => hh rfl)]
    rw [htp]
    dsimp only
    rw [hfp, hft]
    dsimp only
    rw [hoi, hti]
    dsimp only
    rw [hoc, htc]
    dsimp only
    have hmid : findPl (setL r.players pid { player with hand := player.hand.set oi tc }) tid = some target := by
      rw [findPl_setL_ne _ _ _ _ hne]
      exact hft
    refine ⟨rfl, ?_, ?_⟩
    · rw [handOf_advanceTurn]
      unfold handOf
      rw [players_setPriv, setPl_players, findPl_setL_ne _ _ _ _ hpt,
        setPl_players, findPl_setL_self _ _ _ _ hfp]
      rfl
    · rw [handOf_advanceTurn]
      unfold handOf
      rw [players_setPriv, setPl_players, setPl_players,
        findPl_setL_self _ _ _ _ hmid]
      rfl

/-- The engine's pending SEE_AND_SWAP state for player A. -/
def ssPA : PendingAction :=
  { type := AState.SEE_AND_SWAPPING_CARDS, playerId := "A", targetId := none,
    handIndex := none, card := none, revealedCard := none, expiresAt := 100 }

def cexSS : GameState := { wState with pendingAction := some ssPA }

/-- C7 (counterexample): in the engine (`KabulGame.seeAndSwap`) the one
call that reveals the two involved cards to the acting player (it
returns their identities) has already executed the exchange and ended
the pending ability: both hands change and the pending state is cleared
in that same call, so no explicit confirm step exists that alone
executes the exchange. -/
theorem C7_counterexample :
    (seeAndSwap cexSS "A" 0 "B" 1 50).2 =
      Except.ok (wCard "9", wCard "2") ∧
    (findP (seeAndSwap cexSS "A" 0 "B" 1 50).1.players "A").map Player.hand ≠
      (findP cexSS.players "A").map Player.hand ∧
    (findP (seeAndSwap cexSS "A" 0 "B" 1 50).1.players "B").map Player.hand ≠
      (findP cexSS.players "B").map Player.hand ∧
    (seeAndSwap cexSS "A" 0 "B" 1 50).1.pendingAction = none := by
  refine ⟨rfl, ?_, ?_, rfl⟩ <;> decide

def wHandA : List Card := [wCard "9", wCard "5"]

def wHandB : List Card := [wCard "9", wCard "2"]

def wFPA : FB.FBPlayer :=
  { name := "Alice", hand := wHandA, cardCount := 2,
    hasCalledKabul := false, finalScore := none }

def wFPB : FB.FBPlayer :=
  { name := "Bob", hand := wHandB, cardCount := 2,
    hasCalledKabul := false, finalScore := none }

/-- A fully recorded SEE_AND_SWAP ability: A swaps their card 0 with
B's card 1. -/
def wAb : FB.FBAbility :=
  { type := some "SEE_AND_SWAP", activePlayer := some "A",
    ownCardIndex := some 0, targetPlayer := some "B",
    targetCardIndex := some 1, step := some "CONFIRMING" }

def wRoom : FB.FBRoom :=
  { phase := "PLAYING", currentTurn := some "A",
    turnPhase := "CONFIRMING_SWAP", abilityState := some wAb,
    topDiscard := none, kabulCaller := none, finalTurnsRemaining := 0,
    winner := none, players := [("A", wFPA), ("B", wFPB)],
    privates := [], discardPile := [], deck := [] }

/-- Witness for C7: confirming on the concrete room executes exactly the
recorded exchange. -/
theorem C7_see_and_swap_witness :
    (FB.confirmSwap wRoom "A" 0 1).2 = Except.ok () ∧
    FB.handOf (FB.confirmSwap wRoom "A" 0 1).1 "A" =
      some (wHandA.set 0 (wCard "2")) ∧
    FB.handOf (FB.confirmSwap wRoom "A" 0 1).1 "B" =
      some (wHandB.set 1 (wCard "9")) :=
  (C7_see_and_swap wRoom "A" "B" wAb 0 1 wFPA wFPB (wCard "9") (wCard "2")
    (by decide) (by decide) (by decide) (by decide) (by decide) (by decide)
    (by decide) (by decide) (by decide) (by decide)).2.2.2.2.2 0 1

end Kabul
